import Mathlib

/-!
Verification of the joblib `numpy_pickle` persistence layer (file
`src/joblib/numpy_pickle.py`) against its natural-language specification.

The development is a shallow embedding:

* byte strings are `List Nat` (each entry one byte value);
* the zlib streaming compressor/decompressor pair (`zlib.compressobj` /
  `zlib.decompressobj`), an external library used as a black box by the
  source, is a parameter `ZlibSpec` whose documented behaviour (feeding the
  compressed stream back through the decompressor in any chunking
  reproduces the input) is the predicate `ZlibOk`;
* the generic pickle engine (`pickle._Pickler` / `pickle._Unpickler`),
  also external, is a parameter `PickleSpec` with contract `PickleOk`
  (decode inverts encode, and encoded streams start with the protocol-2
  opcode byte 0x80, hence never with the Z-file magic);
* files on disk are an association list from path (byte string) to content.

Concrete executable instances (`idZlib`, `pcConc`) witness both contracts.
-/

namespace NumpyPickle

/-! ## Byte-string utilities: Python `hex`, `int(s, 16)`, `ljust`, slicing -/

/-- Module constant `_MEGA = 2 ** 20` from the source. -/
def mega : Nat := 2 ^ 20

/-- Module constant `_CHUNK_SIZE = 64 * 1024` from the source. -/
def chunkSize : Nat := 64 * 1024

/-- Module constant `_ZFILE_PREFIX = b'ZF'` from the source (bytes of `Z`, `F`). -/
def zfMagic : List Nat := [90, 70]

/-- ASCII byte of one lowercase hex digit, as produced by Python `hex`. -/
def hexDigitByte (d : Nat) : Nat := if d < 10 then 48 + d else 87 + d

/-- Fuel-driven hex digit expansion (most significant digit first).  The fuel
only bounds the recursion depth; `fuel ≥ n + 1` is always enough. -/
def hexRepAux : Nat → Nat → List Nat
  | 0, _ => []
  | fuel + 1, n =>
    if n < 16 then [hexDigitByte n]
    else hexRepAux fuel (n / 16) ++ [hexDigitByte (n % 16)]

/-- Hex digits of `n`, most significant first, lowercase ASCII. -/
def hexRep (n : Nat) : List Nat := hexRepAux (n + 1) n

/-- Python `hex(n)` for a natural number: `0x` followed by lowercase digits. -/
def pyHexBytes (n : Nat) : List Nat := [48, 120] ++ hexRep n

/-- Source constant `_MAX_LEN = len(hex(2 ** 64).rstrip('L'))` (the `rstrip`
is a Python-2 leftover and a no-op on this string). -/
def zMaxLen : Nat := (pyHexBytes (2 ^ 64)).length

/-- Python `bytes.ljust(w)`: pad on the right with ASCII spaces up to width `w`. -/
def pyLjust (s : List Nat) (w : Nat) : List Nat := s ++ List.replicate (w - s.length) 32

/-- ASCII whitespace bytes stripped by Python `int(s, base)`. -/
def isWS (c : Nat) : Bool := c = 32 || c = 9 || c = 10 || c = 13 || c = 11 || c = 12

/-- Numeric value of one ASCII hex digit (either case), if it is one. -/
def hexDigitVal (c : Nat) : Option Nat :=
  if 48 ≤ c ∧ c ≤ 57 then some (c - 48)
  else if 97 ≤ c ∧ c ≤ 102 then some (c - 87)
  else if 65 ≤ c ∧ c ≤ 70 then some (c - 55)
  else none

/-- Accumulating left-to-right hex evaluation; `none` on a non-digit. -/
def hexValAux : Nat → List Nat → Option Nat
  | acc, [] => some acc
  | acc, c :: r =>
    match hexDigitVal c with
    | some d => hexValAux (acc * 16 + d) r
    | none => none

/-- Value of a nonempty all-hex-digit string. -/
def hexValOpt (l : List Nat) : Option Nat :=
  if l = [] then none else hexValAux 0 l

/-- Model of Python `int(s, 16)`: strip ASCII whitespace at both ends, accept
an optional sign, an optional `0x`/`0X` tag, then at least one hex digit.
(Underscore digit separators, accepted by Python ≥ 3.6, never occur in the
streams this module writes and are not modelled.) -/
def pyIntHex (s : List Nat) : Option Int :=
  let t := ((s.dropWhile isWS).reverse.dropWhile isWS).reverse
  let sign : Bool := t.head? = some 45
  let t1 : List Nat := if t.head? = some 45 ∨ t.head? = some 43 then t.tail else t
  let t2 : List Nat :=
    if t1.head? = some 48 ∧ (t1.tail.head? = some 120 ∨ t1.tail.head? = some 88)
    then t1.tail.tail else t1
  (hexValOpt t2).map (fun n => if sign then -(n : Int) else (n : Int))

/-- Split a byte string into consecutive chunks of size `c` (last one short),
as successive `file_handle.read(c)` calls produce; fuel-driven. -/
def chunksOfAux : Nat → Nat → List Nat → List (List Nat)
  | 0, _, _ => []
  | fuel + 1, c, xs =>
    if xs = [] then [] else xs.take c :: chunksOfAux fuel c (xs.drop c)

/-- All chunks of size `c` of a byte string. -/
def chunksOf (c : Nat) (xs : List Nat) : List (List Nat) :=
  chunksOfAux xs.length c xs

/-! ## Numpy arrays

The numpy library is external to the source (imported and used as a black
box).  An array is modelled by its runtime type (`type(obj)`, which the
source compares against exactly `np.ndarray`, `np.matrix`, `np.memmap`),
its shape, dtype, memory-order flag, and its flattened raw bytes.  The
`data` field holds the bytes in logical (C, row-major) element order, which
is the order `array.flat` iterates in — the order `write_zfile` consumes. -/

/-- Runtime array types the pickler intercepts. -/
inductive NpKind where
  | ndarray
  | matrix
  | memmap
deriving DecidableEq, Repr

/-- A numpy dtype: an identifying code plus its element byte width. -/
structure NpDtype where
  code : Nat
  itemsize : Nat
deriving DecidableEq, Repr

/-- Shallow model of a numpy array. -/
structure NpArray where
  kind : NpKind
  shape : List Nat
  dtype : NpDtype
  /-- The flag `array.flags.f_contiguous and not array.flags.c_contiguous`. -/
  fortran : Bool
  /-- Flattened raw bytes in logical (row-major) element order. -/
  data : List Nat
deriving DecidableEq, Repr

/-- The attribute `obj.size`: total element count. -/
def NpArray.size (a : NpArray) : Nat := a.shape.prod

/-- The attribute `obj.nbytes` (also `obj.size * obj.itemsize`). -/
def NpArray.nbytes (a : NpArray) : Nat := a.size * a.dtype.itemsize

/-- Well-formedness: the raw buffer has exactly `nbytes` bytes. -/
def NpArray.wf (a : NpArray) : Prop := a.data.length = a.nbytes

/-! ## The zlib streaming codec (external collaborator)

`zlib.compressobj(level)` / `zlib.decompressobj()` are modelled as an
abstract stateful codec; `ZlibOk` is zlib's documented contract: pushing
the full compressed stream (in any chunking) through a fresh decompressor
and flushing reproduces the concatenation of the compressed inputs. -/

/-- Abstract stateful compress/decompress pair, standing for the `zlib`
module's `compressobj`/`decompressobj` objects. -/
structure ZlibSpec where
  CSt : Type
  DSt : Type
  compressobj : Nat → CSt
  compressStep : CSt → List Nat → CSt × List Nat
  compressFlush : CSt → List Nat
  decompressobj : DSt
  decompressStep : DSt → List Nat → DSt × List Nat
  decompressFlush : DSt → List Nat

/-- Run the compressor over a list of input chunks, concatenating outputs. -/
def compRun (Z : ZlibSpec) : Z.CSt → List (List Nat) → Z.CSt × List Nat
  | c, [] => (c, [])
  | c, ch :: rest =>
    let s := Z.compressStep c ch
    let r := compRun Z s.1 rest
    (r.1, s.2 ++ r.2)

/-- The full compressed stream of a chunked payload at a given level:
all `compress` outputs followed by the final `flush`. -/
def compressedStream (Z : ZlibSpec) (level : Nat) (chunks : List (List Nat)) : List Nat :=
  let r := compRun Z (Z.compressobj level) chunks
  r.2 ++ Z.compressFlush r.1

/-- Run the decompressor over a list of compressed chunks. -/
def decompRun (Z : ZlibSpec) : Z.DSt → List (List Nat) → Z.DSt × List Nat
  | d, [] => (d, [])
  | d, zc :: rest =>
    let s := Z.decompressStep d zc
    let r := decompRun Z s.1 rest
    (r.1, s.2 ++ r.2)

/-- Decompress a list of compressed chunks from a fresh decompressor and
append the decompressor's flush output. -/
def decompressedStream (Z : ZlibSpec) (zchunks : List (List Nat)) : List Nat :=
  let r := decompRun Z Z.decompressobj zchunks
  r.2 ++ Z.decompressFlush r.1

/-- zlib's streaming contract: however the compressed stream is re-chunked,
decompressing it reproduces the original concatenated input. -/
def ZlibOk (Z : ZlibSpec) : Prop :=
  ∀ (level : Nat) (chunks zchunks : List (List Nat)),
    zchunks.flatten = compressedStream Z level chunks →
    decompressedStream Z zchunks = chunks.flatten

/-- A concrete codec satisfying `ZlibOk`: the identity (store) codec.  Used
to instantiate witnesses; the theorems themselves hold for every codec
satisfying `ZlibOk`. -/
def idZlib : ZlibSpec where
  CSt := Unit
  DSt := Unit
  compressobj := fun _ => ()
  compressStep := fun _ ch => ((), ch)
  compressFlush := fun _ => []
  decompressobj := ()
  decompressStep := fun _ zc => ((), zc)
  decompressFlush := fun _ => []

/-! ## Z-file container: `write_zfile` and `read_zfile`

`write_zfile(file_handle, data, compress)` accepts either a plain byte
string or a numpy array.  For an array it uses `data.nbytes` as the length
and iterates `data.flat` (logical element order); slicing the flat iterator
by element indices and compressing each slice makes the concatenated
compressed input equal to the logical-order raw bytes. -/

/-- The `data` argument of `write_zfile`: a plain byte string, or a numpy
array (which has `nbytes` and `flat`). -/
inductive ZData where
  | raw (bs : List Nat)
  | arr (a : NpArray)
deriving DecidableEq, Repr

/-- The byte length written in the header: `data.nbytes` when the data has
that attribute, else `len(data)`. -/
def zdataLen : ZData → Nat
  | .raw bs => bs.length
  | .arr a => a.nbytes

/-- The i-th slice `data[i*_CHUNK_SIZE:(i+1)*_CHUNK_SIZE]` fed to the
compressor.  For an array, `data` was rebound to `data.flat`, so the slice
selects elements (not bytes) in logical order; its buffer is the matching
segment of the logical-order raw bytes. -/
def zdataChunk (d : ZData) : Nat → List Nat :=
  match d with
  | .raw bs => fun i => (bs.drop (i * chunkSize)).take chunkSize
  | .arr a => fun i =>
      (a.data.drop (i * chunkSize * a.dtype.itemsize)).take (chunkSize * a.dtype.itemsize)

/-- The chunk indices of the write loop:
`for i in range(data_length // _CHUNK_SIZE + 1)`. -/
def zdataIdx (d : ZData) : List Nat := List.range (zdataLen d / chunkSize + 1)

/-- The write loop: compress each slice in turn, emitting output as it goes;
returns the emitted bytes and the final compressor state. -/
def writeLoop (Z : ZlibSpec) (d : ZData) : Z.CSt → List Nat → List Nat × Z.CSt
  | c, [] => ([], c)
  | c, i :: rest =>
    let s := Z.compressStep c (zdataChunk d i)
    let r := writeLoop Z d s.1 rest
    (s.2 ++ r.1, r.2)

/-- Model of `write_zfile(file_handle, data, compress)`: the byte string
written to the file handle — magic, space-padded `hex(length)` header, then
the compressed chunks and the compressor's flush tail. -/
def write_zfile (Z : ZlibSpec) (level : Nat) (d : ZData) : List Nat :=
  let header := zfMagic ++ pyLjust (pyHexBytes (zdataLen d)) zMaxLen
  let r := writeLoop Z d (Z.compressobj level) (zdataIdx d)
  header ++ r.1 ++ Z.compressFlush r.2

/-- A readable stream: its repr-name (interpolated into error messages by
the source) and its bytes. -/
structure FileH where
  name : List Nat
  data : List Nat
deriving DecidableEq, Repr

/-- Failures of `read_zfile`: the magic assertion, `int()` on a bad header
(`ValueError`), and the length-mismatch corruption assertion, which carries
the identity of the source stream. -/
inductive ZErr where
  | magicAssert
  | valueErr
  | corrupt (src : List Nat)
deriving DecidableEq, Repr

/-- The read loop: read 64 KiB compressed chunks, decompress each, and
write it into the buffer at position `idx` by Python slice assignment
`write_buf[idx:idx+len(chunk)] = chunk`.  Returns final decompressor state,
buffer and index. -/
def readLoop (Z : ZlibSpec) : Z.DSt → List Nat → Nat → List (List Nat) →
    Z.DSt × List Nat × Nat
  | d, buf, idx, [] => (d, buf, idx)
  | d, buf, idx, zc :: rest =>
    let s := Z.decompressStep d zc
    readLoop Z s.1 (buf.take idx ++ s.2 ++ buf.drop (idx + s.2.length))
      (idx + s.2.length) rest

/-- Model of `read_zfile(file_handle, write_buf)`: check the magic, parse
the fixed-width hex length header with `int(_, 16)`, decompress the rest of
the stream chunkwise into the buffer, assign the decompressor's flush to
`write_buf[idx:]`, and assert the declared length. -/
def read_zfile (Z : ZlibSpec) (fh : FileH) (writeBuf : Option (List Nat)) :
    Except ZErr (List Nat) :=
  if fh.data.take 2 = zfMagic then
    match pyIntHex ((fh.data.take (2 + zMaxLen)).drop 2) with
    | none => .error .valueErr
    | some len =>
      let buf0 := writeBuf.getD []
      let r := readLoop Z Z.decompressobj buf0 0
        (chunksOf chunkSize (fh.data.drop (2 + zMaxLen)))
      let finalBuf := r.2.1.take r.2.2 ++ Z.decompressFlush r.1
      if (finalBuf.length : Int) = len then .ok finalBuf
      else .error (.corrupt fh.name)
  else .error .magicAssert

/-! ### Lemmas about the Z-file layer -/

/-- The payload bytes a `ZData` denotes (for an array: its logical-order
raw bytes, the concatenation of the buffers of all `data.flat` slices). -/
def zdataBytes : ZData → List Nat
  | .raw bs => bs
  | .arr a => a.data

/-- Payload well-formedness: the declared length matches the byte count.
Trivially true for plain bytes; for arrays it is `NpArray.wf`. -/
def zdataWf : ZData → Prop
  | .raw _ => True
  | .arr a => a.wf

/-! ## The object graph

A Python object graph, restricted to the node kinds this module treats
specially plus enough generic structure (integers and list cells) to build
arbitrary containers.  Python lists appear as `pyCons`/`pyNil` chains; the
generic pickler serializes them by recursing into each element through the
(overridden) `save`, which is what `saveObj` models. -/

inductive PyObj where
  | pyInt (n : Int)
  | pyNil
  | pyCons (hd tl : PyObj)
  | arr (a : NpArray)
  /-- Wrapper `NDArrayWrapper(filename, subclass)`: basename of the `.npy` sibling
  plus the array's runtime subtype. -/
  | ndWrap (fname : List Nat) (subclass : NpKind)
  /-- Wrapper `ZNDArrayWrapper(filename, init_args, state)`: basename of the `.z`
  sibling, `init_args = (subclass, shape, 'b')` and
  `state = (1, (0,), dtype, fortran_flag, '')`. -/
  | zndWrap (fname : List Nat) (shape : List Nat) (subclass : NpKind)
      (dt : NpDtype) (fortran : Bool)
deriving DecidableEq, Repr

/-- The external generic pickle engine: an encoder/decoder pair over graphs. -/
structure PickleSpec where
  enc : PyObj → List Nat
  dec : List Nat → Option PyObj

/-- Contract of the pickle engine: decoding inverts encoding, and every
encoded stream opens with the pickle protocol-2 opcode byte `0x80` (so it
can never match the Z-file magic `ZF`). -/
def PickleOk (pc : PickleSpec) : Prop :=
  (∀ g, pc.dec (pc.enc g) = some g) ∧ (∀ g, (pc.enc g).take 1 = [128])

/-! ### A concrete pickle codec witnessing `PickleOk`

A simple tag-length-value encoding with a verified decoder; naturals are
unary-coded (marker bytes 6/7), raw byte payloads are length-prefixed. -/

def encNat (n : Nat) : List Nat := List.replicate n 6 ++ [7]

def decNat : List Nat → Option (Nat × List Nat)
  | 7 :: r => some (0, r)
  | 6 :: r =>
    match decNat r with
    | some (n, r2) => some (n + 1, r2)
    | none => none
  | _ => none

def encBytes (l : List Nat) : List Nat := encNat l.length ++ l

def decBytes (bs : List Nat) : Option (List Nat × List Nat) :=
  match decNat bs with
  | some (n, r) => if n ≤ r.length then some (r.take n, r.drop n) else none
  | none => none

def encNatList (l : List Nat) : List Nat := encNat l.length ++ (l.map encNat).flatten

def decNatListN : Nat → List Nat → Option (List Nat × List Nat)
  | 0, r => some ([], r)
  | k + 1, r =>
    match decNat r with
    | some (x, r2) =>
      match decNatListN k r2 with
      | some (xs, r3) => some (x :: xs, r3)
      | none => none
    | none => none

def decNatList (bs : List Nat) : Option (List Nat × List Nat) :=
  match decNat bs with
  | some (k, r) => decNatListN k r
  | none => none

def encKind : NpKind → Nat
  | .ndarray => 0
  | .matrix => 1
  | .memmap => 2

def decKindB (b : Nat) : Option NpKind :=
  if b = 0 then some .ndarray
  else if b = 1 then some .matrix
  else if b = 2 then some .memmap
  else none

def encBool (b : Bool) : Nat := if b then 1 else 0

def decBoolB (b : Nat) : Option Bool :=
  if b = 0 then some false else if b = 1 then some true else none

def encArr (a : NpArray) : List Nat :=
  encKind a.kind :: (encNatList a.shape ++ encNat a.dtype.code ++
    encNat a.dtype.itemsize ++ [encBool a.fortran] ++ encBytes a.data)

def decArr (bs : List Nat) : Option (NpArray × List Nat) :=
  match bs with
  | k :: r =>
    match decKindB k with
    | some kind =>
      match decNatList r with
      | some (sh, r2) =>
        match decNat r2 with
        | some (code, r3) =>
          match decNat r3 with
          | some (isz, r4) =>
            match r4 with
            | fb :: r5 =>
              match decBoolB fb with
              | some ft =>
                match decBytes r5 with
                | some (dat, r6) => some (⟨kind, sh, ⟨code, isz⟩, ft, dat⟩, r6)
                | none => none
              | none => none
            | [] => none
          | none => none
        | none => none
      | none => none
    | none => none
  | [] => none

def encInt (n : Int) : List Nat :=
  (if n < 0 then 1 else 0) :: encNat n.natAbs

def decInt : List Nat → Option (Int × List Nat)
  | s :: r =>
    match decNat r with
    | some (n, r2) =>
      if s = 0 then some ((n : Int), r2)
      else if s = 1 then some (-(n : Int), r2)
      else none
    | none => none
  | [] => none

def encObj : PyObj → List Nat
  | .pyInt n => 0 :: encInt n
  | .pyNil => [1]
  | .pyCons h t => 2 :: (encObj h ++ encObj t)
  | .arr a => 3 :: encArr a
  | .ndWrap f s => 4 :: (encBytes f ++ [encKind s])
  | .zndWrap f sh s dt ft =>
    5 :: (encBytes f ++ encNatList sh ++ [encKind s] ++ encNat dt.code ++
      encNat dt.itemsize ++ [encBool ft])

/-- Fuel measure for the decoder: number of nested `pyCons` decoding steps. -/
def msize : PyObj → Nat
  | .pyCons h t => 1 + msize h + msize t
  | _ => 1

def decObjF : Nat → List Nat → Option (PyObj × List Nat)
  | 0, _ => none
  | fuel + 1, bs =>
    match bs with
    | 0 :: r =>
      match decInt r with
      | some (n, r2) => some (.pyInt n, r2)
      | none => none
    | 1 :: r => some (.pyNil, r)
    | 2 :: r =>
      match decObjF fuel r with
      | some (h, r2) =>
        match decObjF fuel r2 with
        | some (t, r3) => some (.pyCons h t, r3)
        | none => none
      | none => none
    | 3 :: r =>
      match decArr r with
      | some (a, r2) => some (.arr a, r2)
      | none => none
    | 4 :: r =>
      match decBytes r with
      | some (f, r2) =>
        match r2 with
        | kb :: r3 =>
          match decKindB kb with
          | some s => some (.ndWrap f s, r3)
          | none => none
        | [] => none
      | none => none
    | 5 :: r =>
      match decBytes r with
      | some (f, r2) =>
        match decNatList r2 with
        | some (sh, r3) =>
          match r3 with
          | kb :: r4 =>
            match decKindB kb with
            | some s =>
              match decNat r4 with
              | some (code, r5) =>
                match decNat r5 with
                | some (isz, r6) =>
                  match r6 with
                  | fb :: r7 =>
                    match decBoolB fb with
                    | some ft => some (.zndWrap f sh s ⟨code, isz⟩ ft, r7)
                    | none => none
                  | [] => none
                | none => none
              | none => none
            | none => none
          | [] => none
        | none => none
      | none => none
    | _ => none

/-- The concrete pickle codec: protocol byte `0x80` followed by the TLV
encoding; the decoder demands full consumption of the stream. -/
def pcConc : PickleSpec where
  enc := fun g => 128 :: encObj g
  dec := fun bs =>
    match bs with
    | 128 :: r =>
      match decObjF (r.length + 1) r with
      | some (g, []) => some g
      | _ => none
    | _ => none

/-! ## Path handling (`os.path` on POSIX) over byte strings -/

/-- Model of `os.path.basename`: everything after the last slash. -/
def basenameR (s : List Nat) : List Nat :=
  (s.reverse.takeWhile (fun c => c ≠ 47)).reverse

/-- The raw head `p[:i]` of `posixpath.split` (up to and including the last
slash). -/
def dirRawP (s : List Nat) : List Nat := s.take (s.length - (basenameR s).length)

/-- Model of `os.path.dirname`: the raw head, with trailing slashes stripped unless
it consists only of slashes. -/
def dirnameP (s : List Nat) : List Nat :=
  let head := dirRawP s
  if head ≠ [] ∧ head.any (fun c => c ≠ 47) then
    (head.reverse.dropWhile (fun c => c = 47)).reverse
  else head

/-- Model of `os.path.join(d, b)` for the cases the module exercises. -/
def joinP (d b : List Nat) : List Nat :=
  if b.head? = some 47 then b
  else if d = [] then b
  else if d.getLast? = some 47 then d ++ b
  else d ++ [47] ++ b

/-- A path on which `dirname`/`basename`/`join` round-trip (every ordinary
path; excludes oddities like doubled slashes, where the returned sibling
path is a different string that the OS resolves to the same file, which a
string-keyed file-system model cannot represent). -/
def pathOK (p : List Nat) : Prop := joinP (dirnameP p) (basenameR p) = p

/-! ## Decimal formatting for sibling file names (`'%02i' % n`) -/

def decRepAux : Nat → Nat → List Nat
  | 0, _ => []
  | fuel + 1, n =>
    if n < 10 then [48 + n] else decRepAux fuel (n / 10) ++ [48 + n % 10]

/-- Decimal ASCII digits of `n`, most significant first. -/
def decRep (n : Nat) : List Nat := decRepAux (n + 1) n

/-- Python `'%02i' % n`: zero-padded to at least two digits. -/
def fmt02 (n : Nat) : List Nat := if n < 10 then 48 :: decRep n else decRep n

/-- Decimal value of a digit string (for injectivity of `fmt02`). -/
def decVal (l : List Nat) : Nat := l.foldl (fun acc c => acc * 10 + (c - 48)) 0

/-- ASCII `.npy`. -/
def npySuffix : List Nat := [46, 110, 112, 121]

/-- ASCII `.z`. -/
def zSuffix : List Nat := [46, 122]

/-- The sibling filename `'%s_%02i.npy' % (self._filename, counter)`. -/
def sibBase (fn : List Nat) (n : Nat) : List Nat := fn ++ [95] ++ fmt02 n ++ npySuffix

/-- The sibling filename recorded in the manifest: with compression the
`.z` suffix is appended inside `_write_array`. -/
def sibName (fn : List Nat) (compress n : Nat) : List Nat :=
  if compress = 0 then sibBase fn n else sibBase fn n ++ zSuffix

/-! ## The save path (`NumpyPickler`) -/

/-- A stored file: raw bytes (main file or `.z` sibling) or a `.npy`
sibling written by the black-box `np.save`. -/
inductive FileContent where
  | fbytes (bs : List Nat)
  | npy (a : NpArray)
deriving DecidableEq, Repr

/-- The pickler state the claims observe: `_npy_counter`, `_filenames`,
files written so far, and text printed to standard output (the bare
`except` handler's reporting channel). -/
structure SaveSt where
  counter : Nat
  manifest : List (List Nat)
  fs : List (List Nat × FileContent)
  log : List (List Nat)
deriving DecidableEq, Repr

/-- Stand-in for the `'Failed to save %s to .npy file'` message printed by
the bare `except` handler (ASCII `Fail`). -/
def extFailMsg : List Nat := [70, 97, 105, 108]

/-- Model of `np.asarray` on a memmap: same data, base `ndarray` type. -/
def npAsarray (a : NpArray) : NpArray := { a with kind := .ndarray }

/-- Model of `NumpyPickler._write_array(array, filename)`: returns the
container object, the final filename, and the sibling file written. -/
def writeArray (Z : ZlibSpec) (compress : Nat) (a : NpArray) (filename : List Nat) :
    PyObj × List Nat × FileContent :=
  if compress = 0 then
    (.ndWrap (basenameR filename) a.kind, filename, .npy a)
  else
    (.zndWrap (basenameR (filename ++ zSuffix)) a.shape a.kind a.dtype a.fortran,
      filename ++ zSuffix,
      .fbytes (write_zfile Z compress (.arr a)))

/-- Model of `NumpyPickler.save`, the override the generic pickler calls on
every node: arrays of the three recognized types are intercepted; small
arrays under compression are inlined (memmaps converted first); otherwise
the array is externalized, with the counter rolled back and the array
serialized inline if externalization raises (`fails` says which attempts
raise — in the source, any exception out of `np.save`/`open`/`write_zfile`).
Other nodes are passed to the generic engine, which recurses into list
cells through this same method. -/
def saveObj (Z : ZlibSpec) (fails : Nat → Bool) (fn : List Nat)
    (compress cache : Nat) : PyObj → SaveSt → PyObj × SaveSt
  | .arr a, st =>
    if compress ≠ 0 ∧ a.nbytes < cache * mega then
      (.arr (if a.kind = .memmap then npAsarray a else a), st)
    else
      if fails (st.counter + 1) then
        (.arr a, { st with log := st.log ++ [extFailMsg] })
      else
        let w := writeArray Z compress a (sibBase fn (st.counter + 1))
        (w.1, { counter := st.counter + 1, manifest := st.manifest ++ [w.2.1],
                fs := (w.2.1, w.2.2) :: st.fs, log := st.log })
  | .pyCons h t, st =>
    let rh := saveObj Z fails fn compress cache h st
    let rt := saveObj Z fails fn compress cache t rh.2
    (.pyCons rh.1 rt.1, rt.2)
  | g, st => (g, st)

/-- The pickler's initial state: `_filenames = [filename]`, counter 0. -/
def initSt (fn : List Nat) : SaveSt := ⟨0, [fn], [], []⟩

/-- Everything `dump(value, filename, compress, cache_size)` produces. -/
structure DumpOut where
  files : List (List Nat)
  fs : List (List Nat × FileContent)
  log : List (List Nat)
deriving DecidableEq, Repr

/-- The transformed graph the main file's pickle stream encodes. -/
def dumpGraph (Z : ZlibSpec) (fails : Nat → Bool) (v : PyObj) (fn : List Nat)
    (compress cache : Nat) : PyObj :=
  (saveObj Z fails fn compress cache v (initSt fn)).1

/-- Model of `dump`: run the pickler over the graph, then write the main
file — directly (plain) or as one whole-stream Z-file of the in-memory
pickle buffer (`NumpyPickler.close`).  Returns the manifest
(`pickler._filenames`), the file system, and the printed log. -/
def dumpModel (Z : ZlibSpec) (pc : PickleSpec) (fails : Nat → Bool) (v : PyObj)
    (fn : List Nat) (compress cache : Nat) : DumpOut :=
  let r := saveObj Z fails fn compress cache v (initSt fn)
  let mainContent := if compress = 0 then pc.enc r.1
    else write_zfile Z compress (.raw (pc.enc r.1))
  ⟨r.2.manifest, (fn, .fbytes mainContent) :: r.2.fs, r.2.log⟩

/-! ## The load path (`NumpyUnpickler` / `ZipNumpyUnpickler` / `load`) -/

/-- First matching entry of the file system (later writes shadow earlier
ones, matching overwrite semantics with our prepend-on-write model). -/
def fsLookup (fs : List (List Nat × FileContent)) (k : List Nat) : Option FileContent :=
  match fs with
  | [] => none
  | e :: rest => if e.1 = k then some e.2 else fsLookup rest k

inductive LoadErr where
  | missing (p : List Nat)
  | unpickleErr
  | zerr (e : ZErr)
deriving DecidableEq, Repr

/-- The object `np.core.multiarray._reconstruct(subclass, (0,), 'b')` that
`NDArrayWrapper.read` builds when the stored subclass is neither `ndarray`
nor `memmap`: an empty array of that subclass with shape `(0,)` and the
one-byte `'b'` (int8) dtype (code 98, the character's ASCII value). -/
def reconstructStub (sub : NpKind) : NpArray := ⟨sub, [0], ⟨98, 1⟩, false, []⟩

/-- Model of the intercepted `load_build`: replace wrapper placeholders by
the arrays their `read` methods materialize.  `NDArrayWrapper.read` calls
`np.load(dirname/filename, mmap_mode)` (returning a memmap when a mode is
given); for a subclass other than `ndarray`/`memmap` it then builds the
empty `_reconstruct(subclass, (0,), 'b')` placeholder, calls
`new_array.__array_prepare__(array)` but discards the returned value (the
call does not mutate `new_array`), and returns the still-empty placeholder
(`array = new_array`), so the loaded data is lost for such subclasses.
`ZNDArrayWrapper.read` rebuilds an empty array from `init_args`/`state`,
resizes it, and overwrites its buffer with the Z-file payload (the resized
buffer is C-ordered). -/
def materialize (Z : ZlibSpec) (fs : List (List Nat × FileContent))
    (dname : List Nat) (mmap : Option Nat) : PyObj → Except LoadErr PyObj
  | .ndWrap f sub =>
    match fsLookup fs (joinP dname f) with
    | some (.npy a) =>
      let arr0 : NpArray := { a with kind := if mmap.isSome then .memmap else .ndarray }
      .ok (.arr (if sub ≠ .ndarray ∧ sub ≠ .memmap then reconstructStub sub else arr0))
    | _ => .error (.missing (joinP dname f))
  | .zndWrap f sh sub dt _ft =>
    match fsLookup fs (joinP dname f) with
    | some (.fbytes zb) =>
      match read_zfile Z ⟨joinP dname f, zb⟩ none with
      | .ok payload => .ok (.arr ⟨sub, sh, dt, false, payload⟩)
      | .error e => .error (.zerr e)
    | _ => .error (.missing (joinP dname f))
  | .pyCons h t =>
    match materialize Z fs dname mmap h with
    | .ok h2 =>
      match materialize Z fs dname mmap t with
      | .ok t2 => .ok (.pyCons h2 t2)
      | .error e => .error e
    | .error e => .error e
  | g => .ok g

/-- A loaded value together with the warnings emitted on the way. -/
structure LoadOut where
  value : PyObj
  warns : List (List Nat × Nat)
deriving DecidableEq, Repr

/-- Model of `load(filename, mmap_mode)`: probe the first bytes for the
Z-file magic (the probe seeks back to position 0); on a Z-file, warn if an
`mmap_mode` was passed and ignore it, decompress the whole stream, and
unpickle from the buffer; otherwise unpickle the file directly, passing
`mmap_mode` through to array materialization. -/
def loadModel (Z : ZlibSpec) (pc : PickleSpec) (fs : List (List Nat × FileContent))
    (p : List Nat) (mmap : Option Nat) : Except LoadErr LoadOut :=
  match fsLookup fs p with
  | some (.fbytes mainBytes) =>
    if mainBytes.take 2 = zfMagic then
      let warns : List (List Nat × Nat) := match mmap with
        | some m => [(p, m)]
        | none => []
      match read_zfile Z ⟨p, mainBytes⟩ none with
      | .error e => .error (.zerr e)
      | .ok payload =>
        match pc.dec payload with
        | none => .error .unpickleErr
        | some g =>
          match materialize Z fs (dirnameP p) none g with
          | .ok v => .ok ⟨v, warns⟩
          | .error e => .error e
    else
      match pc.dec mainBytes with
      | none => .error .unpickleErr
      | some g =>
        match materialize Z fs (dirnameP p) mmap g with
        | .ok v => .ok ⟨v, []⟩
        | .error e => .error e
  | some (.npy _) => .error .unpickleErr
  | none => .error (.missing p)

/-! ## Observables used in the claim statements -/

/-- All array nodes of a graph, left to right. -/
def arraysOf : PyObj → List NpArray
  | .pyCons h t => arraysOf h ++ arraysOf t
  | .arr a => [a]
  | _ => []

/-- Number of wrapper placeholder nodes in a graph. -/
def wrapCount : PyObj → Nat
  | .pyCons h t => wrapCount h + wrapCount t
  | .ndWrap _ _ => 1
  | .zndWrap _ _ _ _ _ => 1
  | _ => 0

/-- Number of arrays the pickler externalizes (those failing the
small-array fast-path test of `NumpyPickler.save`). -/
def bigCount (compress cache : Nat) : PyObj → Nat
  | .pyCons h t => bigCount compress cache h + bigCount compress cache t
  | .arr a => if compress ≠ 0 ∧ a.nbytes < cache * mega then 0 else 1
  | _ => 0

/-- Equality of two arrays in values, dtype and shape (the equality the
round-trip claims assert; memory order and runtime subtype may differ). -/
def valEq (x y : NpArray) : Prop :=
  x.data = y.data ∧ x.dtype = y.dtype ∧ x.shape = y.shape

/-- Hex digits needed for a 64-bit value (the width `W` claim C7 asserts):
the length of the hex representation of the largest 64-bit value. -/
def hexDigits64 : Nat := (hexRep (2 ^ 64 - 1)).length

/-- The Z-file stream layout exactly as claim C7 words it: magic, then the
length in ASCII hex digits left-justified to width `hexDigits64`, then the
compressed chunks and flush tail. -/
def c7ClaimStream (Z : ZlibSpec) (level : Nat) (d : ZData) : List Nat :=
  zfMagic ++ pyLjust (hexRep (zdataLen d)) hexDigits64 ++
    compressedStream Z level ((zdataIdx d).map (zdataChunk d))

/-- Decidable equality on `Except`, for evaluating witnesses. -/
instance exceptDecEq {e a : Type} [DecidableEq e] [DecidableEq a] :
    DecidableEq (Except e a) := fun x y =>
  match x, y with
  | .error u, .error v =>
    match decEq u v with
    | isTrue h => isTrue (by rw [h])
    | isFalse h => isFalse (fun hc => h (Except.noConfusion hc id))
  | .ok u, .ok v =>
    match decEq u v with
    | isTrue h => isTrue (by rw [h])
    | isFalse h => isFalse (fun hc => h (Except.noConfusion hc id))
  | .error _, .ok _ => isFalse (fun hc => Except.noConfusion hc)
  | .ok _, .error _ => isFalse (fun hc => Except.noConfusion hc)

/-! ### Concrete fixtures for witnesses -/

/-- A tiny concrete plain array: shape `(2,)`, 1-byte dtype, bytes `[3, 4]`. -/
def wArr : NpArray := ⟨.ndarray, [2], ⟨1, 1⟩, false, [3, 4]⟩

/-- The same array as a memmap. -/
def wMap : NpArray := ⟨.memmap, [2], ⟨1, 1⟩, false, [3, 4]⟩

/-- The same array as an `np.matrix` (a non-trivial ndarray subclass). -/
def wMtx : NpArray := ⟨.matrix, [2], ⟨1, 1⟩, false, [3, 4]⟩

/-- A small graph (a two-element Python list) containing one array. -/
def c4g : PyObj := .pyCons (.pyInt 7) (.pyCons (.arr wArr) .pyNil)

/-- A one-file file system whose main file is a Z-file. -/
def c8fs : List (List Nat × FileContent) :=
  [([97], .fbytes (write_zfile idZlib 3 (.raw (pcConc.enc .pyNil))))]

/-! ## Theorems -/

/-! ### Basic lemmas about the utilities -/

theorem take_len_append (l r : List Nat) : (l ++ r).take l.length = l := by
  induction l with
  | nil => simp
  | cons x xs ih => simp [ih]

theorem drop_len_append (l r : List Nat) : (l ++ r).drop l.length = r := by
  induction l with
  | nil => simp
  | cons x xs ih => simp [ih]

theorem hexDigitVal_hexDigitByte (d : Nat) (h : d < 16) :
    hexDigitVal (hexDigitByte d) = some d := by
  unfold hexDigitVal hexDigitByte
  by_cases h10 : d < 10
  · rw [if_pos h10, if_pos (by omega)]
    congr 1
    omega
  · rw [if_neg h10, if_neg (by omega), if_pos (by omega)]
    congr 1
    omega

theorem hexValAux_append (l1 l2 : List Nat) (acc : Nat) :
    hexValAux acc (l1 ++ l2) =
      match hexValAux acc l1 with
      | some a => hexValAux a l2
      | none => none := by
  induction l1 generalizing acc with
  | nil => simp [hexValAux]
  | cons c r ih =>
    simp only [List.cons_append, hexValAux]
    cases hexDigitVal c with
    | some d => simp [ih]
    | none => simp

theorem hexValAux_hexRepAux (fuel n : Nat) (h : n < fuel) (acc : Nat) :
    hexValAux acc (hexRepAux fuel n) =
      some (acc * 16 ^ (hexRepAux fuel n).length + n) := by
  induction fuel generalizing n acc with
  | zero => omega
  | succ f ih =>
    by_cases h16 : n < 16
    · simp [hexRepAux, if_pos h16, hexValAux, hexDigitVal_hexDigitByte n h16]
    · have hdiv : n / 16 < f := by omega
      rw [hexRepAux, if_neg h16, hexValAux_append, ih (n / 16) hdiv acc]
      have hd : n % 16 < 16 := Nat.mod_lt _ (by omega)
      simp only [hexValAux, hexDigitVal_hexDigitByte _ hd, List.length_append,
        List.length_singleton]
      have : acc * 16 ^ ((hexRepAux f (n / 16)).length + 1) =
          acc * 16 ^ (hexRepAux f (n / 16)).length * 16 := by ring
      rw [this]
      congr 1
      omega

theorem hexVal_hexRep (n : Nat) : hexValAux 0 (hexRep n) = some n := by
  have := hexValAux_hexRepAux (n + 1) n (by omega) 0
  simpa [hexRep] using this

theorem hexRepAux_ne_nil (fuel n : Nat) (h : n < fuel) : hexRepAux fuel n ≠ [] := by
  cases fuel with
  | zero => omega
  | succ f =>
    by_cases h16 : n < 16 <;> simp [hexRepAux, h16]

theorem hexRep_ne_nil (n : Nat) : hexRep n ≠ [] :=
  hexRepAux_ne_nil (n + 1) n (by omega)

theorem hexRepAux_digits (fuel n : Nat) (c : Nat) (hc : c ∈ hexRepAux fuel n) :
    (48 ≤ c ∧ c ≤ 57) ∨ (97 ≤ c ∧ c ≤ 102) := by
  induction fuel generalizing n with
  | zero => simp [hexRepAux] at hc
  | succ f ih =>
    by_cases h16 : n < 16
    · rw [hexRepAux, if_pos h16] at hc
      simp only [List.mem_singleton] at hc
      subst hc
      unfold hexDigitByte
      by_cases h10 : n < 10
      · rw [if_pos h10]; left; omega
      · rw [if_neg h10]; right; omega
    · rw [hexRepAux, if_neg h16] at hc
      rcases List.mem_append.mp hc with h | h
      · exact ih _ h
      · simp only [List.mem_singleton] at h
        subst h
        unfold hexDigitByte
        have hmod : n % 16 < 16 := Nat.mod_lt _ (by omega)
        by_cases h10 : n % 16 < 10
        · rw [if_pos h10]; left; omega
        · rw [if_neg h10]; right; omega

theorem hexRep_digits (n c : Nat) (hc : c ∈ hexRep n) :
    (48 ≤ c ∧ c ≤ 57) ∨ (97 ≤ c ∧ c ≤ 102) :=
  hexRepAux_digits (n + 1) n c hc

theorem hexRepAux_len_le (fuel n k : Nat) (hf : n < fuel) (hk : 1 ≤ k)
    (h : n < 16 ^ k) : (hexRepAux fuel n).length ≤ k := by
  induction fuel generalizing n k with
  | zero => omega
  | succ f ih =>
    by_cases h16 : n < 16
    · simp [hexRepAux, if_pos h16]
      omega
    · have hk2 : 2 ≤ k := by
        by_contra hlt
        have : k = 1 := by omega
        subst this
        simp at h
        omega
      rw [hexRepAux, if_neg h16]
      have hdivlt : n / 16 < f := by omega
      have hdivpow : n / 16 < 16 ^ (k - 1) := by
        have h1 : n < 16 ^ k := h
        have : 16 ^ k = 16 ^ (k - 1) * 16 := by
          conv_lhs => rw [show k = (k - 1) + 1 by omega]
          ring
        rw [this] at h1
        omega
      have := ih (n / 16) (k - 1) hdivlt (by omega) hdivpow
      simp only [List.length_append, List.length_singleton]
      omega

theorem hexRep_len_le (n k : Nat) (hk : 1 ≤ k) (h : n < 16 ^ k) :
    (hexRep n).length ≤ k :=
  hexRepAux_len_le (n + 1) n k (by omega) hk h

theorem zMaxLen_eq : zMaxLen = 19 := by decide

theorem chunksOfAux_join (c : Nat) (hc : 1 ≤ c) :
    ∀ (fuel : Nat) (xs : List Nat), xs.length ≤ fuel →
      (chunksOfAux fuel c xs).flatten = xs := by
  intro fuel
  induction fuel with
  | zero =>
    intro xs h
    have : xs = [] := List.eq_nil_of_length_eq_zero (by omega)
    simp [this, chunksOfAux]
  | succ f ih =>
    intro xs h
    by_cases hnil : xs = []
    · simp [hnil, chunksOfAux]
    · rw [chunksOfAux, if_neg hnil]
      have hlen : (xs.drop c).length ≤ f := by
        have : 1 ≤ xs.length := by
          cases xs with
          | nil => simp at hnil
          | cons a l => simp
        simp only [List.length_drop]
        omega
      simp [List.flatten, ih (xs.drop c) hlen]

theorem chunksOf_join (c : Nat) (hc : 1 ≤ c) (xs : List Nat) :
    (chunksOf c xs).flatten = xs :=
  chunksOfAux_join c hc xs.length xs (by omega)

theorem idZlib_cstep (c : Unit) (ch : List Nat) :
    idZlib.compressStep c ch = ((), ch) := rfl

theorem idZlib_dstep (d : Unit) (zc : List Nat) :
    idZlib.decompressStep d zc = ((), zc) := rfl

theorem idZlib_cflush (c : Unit) : idZlib.compressFlush c = [] := rfl

theorem idZlib_dflush (d : Unit) : idZlib.decompressFlush d = [] := rfl

theorem idZlib_compRun (c : Unit) (chunks : List (List Nat)) :
    compRun idZlib c chunks = ((), chunks.flatten) := by
  induction chunks with
  | nil => simp [compRun]
  | cons ch rest ih => simp [compRun, idZlib_cstep, ih]

theorem idZlib_decompRun (d : Unit) (zchunks : List (List Nat)) :
    decompRun idZlib d zchunks = ((), zchunks.flatten) := by
  induction zchunks with
  | nil => simp [decompRun]
  | cons zc rest ih => simp [decompRun, idZlib_dstep, ih]

theorem idZlib_ok : ZlibOk idZlib := by
  intro level chunks zchunks h
  simp only [decompressedStream, idZlib_decompRun, idZlib_dflush,
    List.append_nil] at *
  rw [h]
  simp only [compressedStream, idZlib_compRun, idZlib_cflush, List.append_nil]

theorem isWS_false_of_digit (c : Nat)
    (h : (48 ≤ c ∧ c ≤ 57) ∨ (97 ≤ c ∧ c ≤ 102)) : isWS c = false := by
  simp only [isWS, Bool.or_eq_false_iff, decide_eq_false_iff_not]
  omega

theorem dropWhile_ws_replicate (k : Nat) (X : List Nat) :
    (List.replicate k 32 ++ X).dropWhile isWS = X.dropWhile isWS := by
  induction k with
  | zero => simp
  | succ n ih =>
    rw [List.replicate_succ, List.cons_append, List.dropWhile_cons]
    simp [isWS, ih]

theorem strip_pyHex_pad (L k : Nat) :
    ((((pyHexBytes L ++ List.replicate k 32).dropWhile
        isWS).reverse.dropWhile isWS).reverse) = 48 :: 120 :: hexRep L := by
  have h1 : (pyHexBytes L ++ List.replicate k 32).dropWhile isWS
      = pyHexBytes L ++ List.replicate k 32 := by
    rw [pyHexBytes]
    simp only [List.cons_append, List.dropWhile_cons, List.append_assoc]
    norm_num [isWS]
  rw [h1]
  have hrev : (pyHexBytes L ++ List.replicate k 32).reverse
      = List.replicate k 32 ++ ((hexRep L).reverse ++ [120, 48]) := by
    rw [pyHexBytes]
    simp [List.reverse_append]
  rw [hrev, dropWhile_ws_replicate]
  have hXdrop : ((hexRep L).reverse ++ [120, 48]).dropWhile isWS
      = (hexRep L).reverse ++ [120, 48] := by
    cases hh : (hexRep L).reverse with
    | nil =>
      exact absurd (by simpa using congrArg List.reverse hh) (hexRep_ne_nil L)
    | cons c rest =>
      have hc : c ∈ hexRep L := by
        rw [← List.mem_reverse, hh]
        simp
      have hws : isWS c = false := isWS_false_of_digit c (hexRep_digits L c hc)
      rw [List.cons_append, List.dropWhile_cons, hws]
      simp
  rw [hXdrop]
  simp

theorem pyIntHex_pyHex_pad (L k : Nat) :
    pyIntHex (pyHexBytes L ++ List.replicate k 32) = some (L : Int) := by
  unfold pyIntHex
  rw [strip_pyHex_pad]
  simp only [List.head?_cons, List.tail_cons, Option.some.injEq]
  norm_num
  simp [hexValOpt, hexRep_ne_nil, hexVal_hexRep]

theorem pyLjust_length (s : List Nat) (w : Nat) (h : s.length ≤ w) :
    (pyLjust s w).length = w := by
  simp only [pyLjust, List.length_append, List.length_replicate]
  omega

theorem pyHexBytes_len_le (L : Nat) (h : L < 16 ^ 17) :
    (pyHexBytes L).length ≤ 19 := by
  have := hexRep_len_le L 17 (by omega) h
  simp only [pyHexBytes, List.length_append]
  simp only [List.length_cons, List.length_nil]
  omega

theorem take_append_add (l r : List Nat) (n : Nat) :
    (l ++ r).take (l.length + n) = l ++ r.take n := by
  induction l with
  | nil => simp
  | cons x xs ih => simp [ih, Nat.succ_add]

theorem drop_append_add (l r : List Nat) (n : Nat) :
    (l ++ r).drop (l.length + n) = r.drop n := by
  induction l with
  | nil => simp
  | cons x xs ih => simp [ih, Nat.succ_add]

theorem writeLoop_compRun (Z : ZlibSpec) (d : ZData) :
    ∀ (idxs : List Nat) (c : Z.CSt),
      writeLoop Z d c idxs =
        ((compRun Z c (idxs.map (zdataChunk d))).2,
         (compRun Z c (idxs.map (zdataChunk d))).1) := by
  intro idxs
  induction idxs with
  | nil => intro c; simp [writeLoop, compRun]
  | cons i rest ih =>
    intro c
    simp [writeLoop, compRun, ih]

/-- Structure of every written Z-file: magic, padded hex header, then the
compressed stream of the write loop's chunks. -/
theorem write_zfile_eq (Z : ZlibSpec) (level : Nat) (d : ZData) :
    write_zfile Z level d =
      zfMagic ++ pyLjust (pyHexBytes (zdataLen d)) zMaxLen ++
        compressedStream Z level ((zdataIdx d).map (zdataChunk d)) := by
  rw [write_zfile, writeLoop_compRun]
  simp [compressedStream]

theorem le_div_succ_mul (x c : Nat) (hc : 0 < c) : x ≤ (x / c + 1) * c := by
  have h1 := Nat.div_add_mod x c
  have h2 := Nat.mod_lt x hc
  calc x = c * (x / c) + x % c := (Nat.div_add_mod x c).symm
    _ ≤ c * (x / c) + c := by omega
    _ = (x / c + 1) * c := by ring

theorem range_chunks_flatten (C : Nat) (hC : 1 ≤ C) :
    ∀ (n : Nat) (xs : List Nat), xs.length ≤ n * C →
      ((List.range n).map (fun i => (xs.drop (i * C)).take C)).flatten = xs := by
  intro n
  induction n with
  | zero =>
    intro xs h
    simp at h
    simp [h]
  | succ m ih =>
    intro xs h
    rw [List.range_succ_eq_map]
    simp only [List.map_cons, List.map_map, List.flatten_cons, Nat.zero_mul,
      List.drop_zero]
    have hcomp : (List.map ((fun i => (xs.drop (i * C)).take C) ∘ Nat.succ)
        (List.range m)) =
        (List.range m).map (fun i => ((xs.drop C).drop (i * C)).take C) := by
      apply List.map_congr_left
      intro i _
      simp only [Function.comp_apply]
      rw [List.drop_drop]
      congr 2
      simp [Nat.succ_eq_add_one]
      ring
    rw [hcomp, ih (xs.drop C) (by simp [Nat.succ_mul] at h ⊢; omega)]
    simp

/-- What the read loop builds: the buffer below the write index is exactly
the decompressor's output so far, whatever the initial buffer contained. -/
theorem readLoop_spec (Z : ZlibSpec) :
    ∀ (zcs : List (List Nat)) (d : Z.DSt) (buf : List Nat) (idx : Nat),
      idx ≤ buf.length →
      (readLoop Z d buf idx zcs).2.1.take (readLoop Z d buf idx zcs).2.2
          = buf.take idx ++ (decompRun Z d zcs).2
        ∧ (readLoop Z d buf idx zcs).2.2 = idx + (decompRun Z d zcs).2.length
        ∧ (readLoop Z d buf idx zcs).1 = (decompRun Z d zcs).1
        ∧ (readLoop Z d buf idx zcs).2.2 ≤ (readLoop Z d buf idx zcs).2.1.length := by
  intro zcs
  induction zcs with
  | nil =>
    intro d buf idx hidx
    simp [readLoop, decompRun, hidx]
  | cons zc rest ih =>
    intro d buf idx hidx
    simp only [readLoop, decompRun]
    set s := Z.decompressStep d zc with hs
    set buf1 := buf.take idx ++ s.2 ++ buf.drop (idx + s.2.length) with hbuf1
    have hlen1 : idx + s.2.length ≤ buf1.length := by
      simp only [hbuf1, List.length_append, List.length_take, List.length_drop]
      omega
    have htake1 : buf1.take (idx + s.2.length) = buf.take idx ++ s.2 := by
      have hfront : (buf.take idx ++ s.2).length = idx + s.2.length := by
        simp only [List.length_append, List.length_take]
        omega
      rw [hbuf1, List.append_assoc]
      rw [← List.append_assoc (buf.take idx) s.2]
      rw [← hfront, take_len_append]
    obtain ⟨ih1, ih2, ih3, ih4⟩ := ih s.1 buf1 (idx + s.2.length) hlen1
    refine ⟨?_, ?_, ?_, ih4⟩
    · rw [ih1, htake1]
      simp [List.append_assoc]
    · rw [ih2]
      simp only [List.length_append]
      omega
    · exact ih3

/-- The concatenation of all chunks the write loop feeds the compressor is
exactly the payload bytes. -/
theorem zdata_chunks_flatten (d : ZData) (hwf : zdataWf d) :
    ((zdataIdx d).map (zdataChunk d)).flatten = zdataBytes d := by
  have hCpos : 0 < chunkSize := by norm_num [chunkSize]
  cases d with
  | raw bs =>
    simp only [zdataIdx, zdataChunk, zdataLen, zdataBytes]
    exact range_chunks_flatten chunkSize hCpos (bs.length / chunkSize + 1) bs
      (le_div_succ_mul bs.length chunkSize hCpos)
  | arr a =>
    simp only [zdataIdx, zdataChunk, zdataLen, zdataBytes]
    have hwf' : a.data.length = a.nbytes := hwf
    by_cases hz : a.dtype.itemsize = 0
    · have hdata : a.data = [] := by
        apply List.eq_nil_of_length_eq_zero
        rw [hwf']
        simp [NpArray.nbytes, hz]
      simp [hdata, hz]
    · have hrw : (List.range (a.nbytes / chunkSize + 1)).map
          (fun i => (a.data.drop (i * chunkSize * a.dtype.itemsize)).take
            (chunkSize * a.dtype.itemsize))
        = (List.range (a.nbytes / chunkSize + 1)).map
          (fun i => (a.data.drop (i * (chunkSize * a.dtype.itemsize))).take
            (chunkSize * a.dtype.itemsize)) := by
        apply List.map_congr_left
        intro i _
        have : i * chunkSize * a.dtype.itemsize
            = i * (chunkSize * a.dtype.itemsize) := by ring
        rw [this]
      rw [hrw]
      apply range_chunks_flatten (chunkSize * a.dtype.itemsize)
        (Nat.one_le_iff_ne_zero.mpr (Nat.mul_ne_zero (by omega) hz))
        (a.nbytes / chunkSize + 1) a.data
      rw [hwf']
      calc a.nbytes ≤ (a.nbytes / chunkSize + 1) * chunkSize :=
            le_div_succ_mul a.nbytes chunkSize hCpos
        _ ≤ (a.nbytes / chunkSize + 1) * (chunkSize * a.dtype.itemsize) := by
            rw [← Nat.mul_assoc]
            exact Nat.le_mul_of_pos_right _ (by omega)

theorem zdataBytes_length (d : ZData) (hwf : zdataWf d) :
    (zdataBytes d).length = zdataLen d := by
  cases d with
  | raw bs => rfl
  | arr a => exact hwf

/-- Behaviour of `read_zfile` on any stream with good magic and a parseable
header: it returns the decompressed body iff its length matches the header,
and otherwise fails with a corruption error naming the stream — whatever
the caller-supplied buffer held. -/
theorem read_zfile_eq (Z : ZlibSpec) (fh : FileH) (wbuf : Option (List Nat)) (L : Int)
    (hmagic : fh.data.take 2 = zfMagic)
    (hparse : pyIntHex ((fh.data.take (2 + zMaxLen)).drop 2) = some L) :
    read_zfile Z fh wbuf =
      (if ((decompressedStream Z
              (chunksOf chunkSize (fh.data.drop (2 + zMaxLen)))).length : Int) = L
       then .ok (decompressedStream Z (chunksOf chunkSize (fh.data.drop (2 + zMaxLen))))
       else .error (.corrupt fh.name)) := by
  rw [read_zfile, if_pos hmagic, hparse]
  obtain ⟨h1, h2, h3, _⟩ := readLoop_spec Z
    (chunksOf chunkSize (fh.data.drop (2 + zMaxLen)))
    Z.decompressobj (wbuf.getD []) 0 (by omega)
  have hfinal :
      (readLoop Z Z.decompressobj (wbuf.getD []) 0
          (chunksOf chunkSize (fh.data.drop (2 + zMaxLen)))).2.1.take
        (readLoop Z Z.decompressobj (wbuf.getD []) 0
          (chunksOf chunkSize (fh.data.drop (2 + zMaxLen)))).2.2 ++
        Z.decompressFlush
          (readLoop Z Z.decompressobj (wbuf.getD []) 0
            (chunksOf chunkSize (fh.data.drop (2 + zMaxLen)))).1
      = decompressedStream Z (chunksOf chunkSize (fh.data.drop (2 + zMaxLen))) := by
    rw [h1, h3]
    simp [decompressedStream]
  dsimp only
  rw [hfinal]

/-- Round trip at the Z-file layer: reading back a written Z-file returns
exactly the payload bytes, for any codec satisfying zlib's contract, any
level, and any caller-supplied buffer.  The bound keeps the hex header
within its fixed 19-character field (lengths below `16 ^ 17 = 2 ^ 68`). -/
theorem zfile_roundtrip (Z : ZlibSpec) (hZ : ZlibOk Z) (level : Nat) (d : ZData)
    (hwf : zdataWf d) (hbound : zdataLen d < 16 ^ 17) (name : List Nat)
    (wbuf : Option (List Nat)) :
    read_zfile Z ⟨name, write_zfile Z level d⟩ wbuf = .ok (zdataBytes d) := by
  set L := zdataLen d with hL
  set H := pyLjust (pyHexBytes L) zMaxLen with hH
  set B := compressedStream Z level ((zdataIdx d).map (zdataChunk d)) with hB
  have hdataeq : write_zfile Z level d = zfMagic ++ (H ++ B) := by
    rw [write_zfile_eq]
    simp [List.append_assoc]
  have hHlen : H.length = zMaxLen := by
    rw [hH]
    apply pyLjust_length
    rw [zMaxLen_eq]
    exact pyHexBytes_len_le L hbound
  have hmagic : (zfMagic ++ (H ++ B)).take 2 = zfMagic := by
    have h2 : (2 : Nat) = zfMagic.length := rfl
    rw [h2, take_len_append]
  have hslice : ((zfMagic ++ (H ++ B)).take (2 + zMaxLen)).drop 2 = H := by
    have h2 : (2 : Nat) = zfMagic.length := rfl
    rw [h2, take_append_add, drop_len_append, ← hHlen, take_len_append]
  have hbody : (zfMagic ++ (H ++ B)).drop (2 + zMaxLen) = B := by
    have h2 : (2 : Nat) = zfMagic.length := rfl
    rw [h2, drop_append_add, ← hHlen, drop_len_append]
  have hparse : pyIntHex (((zfMagic ++ (H ++ B)).take (2 + zMaxLen)).drop 2)
      = some (L : Int) := by
    rw [hslice, hH, pyLjust]
    exact pyIntHex_pyHex_pad L _
  have hdecomp : decompressedStream Z (chunksOf chunkSize B) = zdataBytes d := by
    rw [hZ level ((zdataIdx d).map (zdataChunk d)) (chunksOf chunkSize B)
      (by rw [chunksOf_join chunkSize (by norm_num [chunkSize]) B, hB])]
    exact zdata_chunks_flatten d hwf
  have hre := read_zfile_eq Z ⟨name, zfMagic ++ (H ++ B)⟩ wbuf (L : Int) hmagic hparse
  rw [show (⟨name, write_zfile Z level d⟩ : FileH) = ⟨name, zfMagic ++ (H ++ B)⟩ by
      rw [hdataeq]]
  rw [hre]
  simp only [hbody, hdecomp]
  rw [if_pos (by rw [zdataBytes_length d hwf])]

theorem read_zfile_wbuf_irrel (Z : ZlibSpec) (fh : FileH) (b0 : List Nat) :
    read_zfile Z fh (some b0) = read_zfile Z fh none := by
  by_cases hmagic : fh.data.take 2 = zfMagic
  · cases hparse : pyIntHex ((fh.data.take (2 + zMaxLen)).drop 2) with
    | none =>
      rw [read_zfile, if_pos hmagic, hparse, read_zfile, if_pos hmagic, hparse]
    | some L =>
      rw [read_zfile_eq Z fh (some b0) L hmagic hparse,
        read_zfile_eq Z fh none L hmagic hparse]
  · rw [read_zfile, if_neg hmagic, read_zfile, if_neg hmagic]

theorem idZlib_compressedStream (level : Nat) (chunks : List (List Nat)) :
    compressedStream idZlib level chunks = chunks.flatten := by
  simp [compressedStream, idZlib_compRun, idZlib_cflush]

theorem idZlib_decompressedStream (zchunks : List (List Nat)) :
    decompressedStream idZlib zchunks = zchunks.flatten := by
  simp [decompressedStream, idZlib_decompRun, idZlib_dflush]

theorem eraseIdx_append_add (A B : List Nat) (p : Nat) :
    (A ++ B).eraseIdx (A.length + p) = A ++ B.eraseIdx p := by
  induction A with
  | nil => simp
  | cons x xs ih => simp [List.eraseIdx, Nat.succ_add, ih]

/-- Under the concrete store codec, deleting any single byte from the
compressed body of a written Z-file makes `read_zfile` fail with the
corruption error naming the stream. -/
theorem zfile_truncation_corrupt (level : Nat) (bs : List Nat)
    (hbound : bs.length < 16 ^ 17) (p : Nat) (hp : p < bs.length)
    (name : List Nat) :
    read_zfile idZlib
      ⟨name, (write_zfile idZlib level (.raw bs)).eraseIdx ((2 + zMaxLen) + p)⟩
      none = .error (.corrupt name) := by
  set L := bs.length with hLdef
  set H := pyLjust (pyHexBytes L) zMaxLen with hH
  have hHlen : H.length = zMaxLen := by
    rw [hH]
    apply pyLjust_length
    rw [zMaxLen_eq]
    exact pyHexBytes_len_le L hbound
  have hwz : write_zfile idZlib level (.raw bs) = (zfMagic ++ H) ++ bs := by
    rw [write_zfile_eq, idZlib_compressedStream,
      zdata_chunks_flatten (.raw bs) trivial]
    simp [zdataBytes, zdataLen, List.append_assoc]
  have hpreflen : (zfMagic ++ H).length = 2 + zMaxLen := by
    simp [zfMagic, hHlen]
    omega
  have herase : (write_zfile idZlib level (.raw bs)).eraseIdx ((2 + zMaxLen) + p)
      = zfMagic ++ (H ++ bs.eraseIdx p) := by
    rw [hwz, ← hpreflen, eraseIdx_append_add]
    simp [List.append_assoc]
  rw [herase]
  have hmagic : (zfMagic ++ (H ++ bs.eraseIdx p)).take 2 = zfMagic := by
    have h2 : (2 : Nat) = zfMagic.length := rfl
    rw [h2, take_len_append]
  have hslice : ((zfMagic ++ (H ++ bs.eraseIdx p)).take (2 + zMaxLen)).drop 2 = H := by
    have h2 : (2 : Nat) = zfMagic.length := rfl
    rw [h2, take_append_add, drop_len_append, ← hHlen, take_len_append]
  have hparse : pyIntHex (((zfMagic ++ (H ++ bs.eraseIdx p)).take (2 + zMaxLen)).drop 2)
      = some (L : Int) := by
    rw [hslice, hH, pyLjust]
    exact pyIntHex_pyHex_pad L _
  have hbody : (zfMagic ++ (H ++ bs.eraseIdx p)).drop (2 + zMaxLen) = bs.eraseIdx p := by
    have h2 : (2 : Nat) = zfMagic.length := rfl
    rw [h2, drop_append_add, ← hHlen, drop_len_append]
  rw [read_zfile_eq idZlib ⟨name, zfMagic ++ (H ++ bs.eraseIdx p)⟩ none (L : Int)
    hmagic hparse]
  rw [hbody, idZlib_decompressedStream,
    chunksOf_join chunkSize (by norm_num [chunkSize])]
  rw [if_neg ?_]
  have hlen : (bs.eraseIdx p).length = bs.length - 1 := by
    rw [List.length_eraseIdx]
    simp [hp]
  rw [hlen]
  intro hcontra
  have : bs.length - 1 = L := by exact_mod_cast hcontra
  omega

/-! ### Correctness of the concrete pickle codec -/

theorem decNat_enc (n : Nat) (r : List Nat) : decNat (encNat n ++ r) = some (n, r) := by
  induction n with
  | zero => simp [encNat, decNat]
  | succ m ih =>
    have h : encNat (m + 1) ++ r = 6 :: (encNat m ++ r) := by
      simp [encNat, List.replicate_succ]
    rw [h]
    simp [decNat, ih]

theorem decBytes_enc (l r : List Nat) : decBytes (encBytes l ++ r) = some (l, r) := by
  rw [encBytes, List.append_assoc, decBytes, decNat_enc]
  simp [take_len_append, drop_len_append]

theorem decNatListN_enc (l r : List Nat) :
    decNatListN l.length ((l.map encNat).flatten ++ r) = some (l, r) := by
  induction l generalizing r with
  | nil => simp [decNatListN]
  | cons x xs ih =>
    simp only [List.length_cons, List.map_cons, List.flatten_cons, List.append_assoc]
    rw [decNatListN, decNat_enc]
    simp only []
    rw [ih]

theorem decNatList_enc (l r : List Nat) :
    decNatList (encNatList l ++ r) = some (l, r) := by
  rw [encNatList, List.append_assoc, decNatList, decNat_enc]
  simp only []
  rw [decNatListN_enc]

theorem decKindB_encKind (k : NpKind) : decKindB (encKind k) = some k := by
  cases k <;> rfl

theorem decBoolB_encBool (b : Bool) : decBoolB (encBool b) = some b := by
  cases b <;> rfl

theorem decArr_enc (a : NpArray) (r : List Nat) : decArr (encArr a ++ r) = some (a, r) := by
  rw [encArr]
  simp only [List.cons_append, List.append_assoc, List.nil_append]
  rw [decArr, decKindB_encKind]
  simp only []
  rw [decNatList_enc]
  simp only []
  rw [decNat_enc]
  simp only []
  rw [decNat_enc]
  simp only []
  rw [decBoolB_encBool]
  simp only []
  rw [decBytes_enc]

theorem decInt_enc (n : Int) (r : List Nat) : decInt (encInt n ++ r) = some (n, r) := by
  rw [encInt]
  by_cases hn : n < 0
  · rw [if_pos hn]
    simp only [List.cons_append, decInt]
    rw [decNat_enc]
    simp only [one_ne_zero, if_true, if_false, Option.some.injEq, Prod.mk.injEq,
      reduceIte]
    exact ⟨by omega, trivial⟩
  · rw [if_neg hn]
    simp only [List.cons_append, decInt]
    rw [decNat_enc]
    simp only [if_true, Option.some.injEq, Prod.mk.injEq, reduceIte]
    exact ⟨by omega, trivial⟩

theorem msize_le_enc (g : PyObj) : msize g ≤ (encObj g).length := by
  induction g with
  | pyInt n => simp [msize, encObj]
  | pyNil => simp [msize, encObj]
  | pyCons h t ihh iht =>
    simp only [msize, encObj, List.length_cons, List.length_append]
    omega
  | arr a => simp [msize, encObj]
  | ndWrap f s => simp [msize, encObj]
  | zndWrap f sh s dt ft => simp [msize, encObj]

theorem decObjF_enc (g : PyObj) :
    ∀ (fuel : Nat) (r : List Nat), msize g ≤ fuel →
      decObjF fuel (encObj g ++ r) = some (g, r) := by
  induction g with
  | pyInt n =>
    intro fuel r hf
    cases fuel with
    | zero => simp [msize] at hf
    | succ f =>
      simp [encObj, decObjF, decInt_enc]
  | pyNil =>
    intro fuel r hf
    cases fuel with
    | zero => simp [msize] at hf
    | succ f =>
      simp [encObj, decObjF]
  | pyCons h t ihh iht =>
    intro fuel r hf
    cases fuel with
    | zero => simp [msize] at hf
    | succ f =>
      have hmh : msize h ≤ f := by
        simp only [msize] at hf
        omega
      have hmt : msize t ≤ f := by
        simp only [msize] at hf
        omega
      rw [encObj]
      simp only [List.cons_append, List.append_assoc]
      rw [decObjF]
      try simp only [List.nil_append]
      rw [ihh f _ hmh]
      try simp only [List.nil_append]
      rw [iht f r hmt]
  | arr a =>
    intro fuel r hf
    cases fuel with
    | zero => simp [msize] at hf
    | succ f =>
      simp [encObj, decObjF, decArr_enc]
  | ndWrap fn s =>
    intro fuel r hf
    cases fuel with
    | zero => simp [msize] at hf
    | succ f =>
      rw [encObj]
      simp only [List.cons_append, List.append_assoc, List.singleton_append]
      rw [decObjF]
      try simp only [List.nil_append]
      rw [decBytes_enc]
      try simp only [List.nil_append]
      rw [decKindB_encKind]
  | zndWrap fn sh s dt ft =>
    intro fuel r hf
    cases fuel with
    | zero => simp [msize] at hf
    | succ f =>
      rw [encObj]
      simp only [List.cons_append, List.append_assoc, List.singleton_append]
      rw [decObjF]
      try simp only [List.nil_append]
      rw [decBytes_enc]
      try simp only [List.nil_append]
      rw [decNatList_enc]
      try simp only [List.nil_append]
      rw [decKindB_encKind]
      try simp only [List.nil_append]
      rw [decNat_enc]
      try simp only [List.nil_append]
      rw [decNat_enc]
      try simp only [List.nil_append]
      rw [decBoolB_encBool]

theorem pcConc_ok : PickleOk pcConc := by
  constructor
  · intro g
    show (match (128 :: encObj g : List Nat) with
      | 128 :: r =>
        match decObjF (r.length + 1) r with
        | some (g, []) => some g
        | _ => none
      | _ => none) = some g
    simp only []
    have := decObjF_enc g ((encObj g).length + 1) []
      (by have := msize_le_enc g; omega)
    rw [List.append_nil] at this
    rw [this]
  · intro g
    rfl

/-! ### Path and sibling-name lemmas -/

theorem takeWhile_append_all (p : Nat → Bool) (A B : List Nat)
    (h : ∀ a ∈ A, p a = true) :
    (A ++ B).takeWhile p = A ++ B.takeWhile p := by
  induction A with
  | nil => simp
  | cons x xs ih =>
    rw [List.cons_append, List.takeWhile_cons, h x (by simp)]
    simp [ih (fun a ha => h a (by simp [ha]))]

theorem basenameR_no47 (s : List Nat) (c : Nat) (hc : c ∈ basenameR s) : c ≠ 47 := by
  rw [basenameR, List.mem_reverse] at hc
  have := List.mem_takeWhile_imp hc
  simpa using this

theorem basenameR_head (s : List Nat) : (basenameR s).head? ≠ some 47 := by
  cases hh : basenameR s with
  | nil => simp
  | cons c rest =>
    have : c ∈ basenameR s := by
      rw [hh]
      simp
    have hne := basenameR_no47 s c this
    simp [hne]

theorem basenameR_append (s t : List Nat) (ht : ∀ c ∈ t, c ≠ 47) :
    basenameR (s ++ t) = basenameR s ++ t := by
  rw [basenameR, basenameR, List.reverse_append]
  rw [takeWhile_append_all _ t.reverse s.reverse
    (fun a ha => by simp [ht a (List.mem_reverse.mp ha)])]
  simp

theorem joinP_append (d b t : List Nat) (hb : b.head? ≠ some 47)
    (ht : t.head? ≠ some 47) : joinP d (b ++ t) = joinP d b ++ t := by
  have hbt : (b ++ t).head? ≠ some 47 := by
    cases b with
    | nil => simpa using ht
    | cons c bs => simpa using hb
  unfold joinP
  rw [if_neg hbt, if_neg hb]
  by_cases hd : d = []
  · rw [if_pos hd, if_pos hd]
  · rw [if_neg hd, if_neg hd]
    by_cases hl : d.getLast? = some 47
    · rw [if_pos hl, if_pos hl]
      simp [List.append_assoc]
    · rw [if_neg hl, if_neg hl]
      simp [List.append_assoc]

theorem pathOK_join (p t : List Nat) (hp : pathOK p) (ht : t.head? ≠ some 47) :
    joinP (dirnameP p) (basenameR p ++ t) = p ++ t := by
  rw [joinP_append _ _ _ (basenameR_head p) ht, hp]

/-! ### Decimal digits and `fmt02` -/

theorem decRepAux_digits (fuel n : Nat) (c : Nat) (hc : c ∈ decRepAux fuel n)
    (hf : n < fuel) : 48 ≤ c ∧ c ≤ 57 := by
  induction fuel generalizing n with
  | zero => simp [decRepAux] at hc
  | succ f ih =>
    by_cases h10 : n < 10
    · rw [decRepAux, if_pos h10] at hc
      simp only [List.mem_singleton] at hc
      omega
    · rw [decRepAux, if_neg h10] at hc
      rcases List.mem_append.mp hc with h | h
      · exact ih _ h (by omega)
      · simp only [List.mem_singleton] at h
        have : n % 10 < 10 := Nat.mod_lt _ (by omega)
        omega

theorem decRep_digits (n c : Nat) (hc : c ∈ decRep n) : 48 ≤ c ∧ c ≤ 57 :=
  decRepAux_digits (n + 1) n c hc (by omega)

theorem fmt02_digits (n c : Nat) (hc : c ∈ fmt02 n) : 48 ≤ c ∧ c ≤ 57 := by
  by_cases h10 : n < 10
  · rw [fmt02, if_pos h10] at hc
    rcases List.mem_cons.mp hc with h | h
    · omega
    · exact decRep_digits n c h
  · rw [fmt02, if_neg h10] at hc
    exact decRep_digits n c hc

theorem foldl_dec_decRepAux (fuel n : Nat) (h : n < fuel) (acc : Nat) :
    (decRepAux fuel n).foldl (fun acc c => acc * 10 + (c - 48)) acc =
      acc * 10 ^ (decRepAux fuel n).length + n := by
  induction fuel generalizing n acc with
  | zero => omega
  | succ f ih =>
    by_cases h10 : n < 10
    · rw [decRepAux, if_pos h10]
      simp only [List.foldl_cons, List.foldl_nil, List.length_singleton]
      omega
    · have hdiv : n / 10 < f := by omega
      rw [decRepAux, if_neg h10, List.foldl_append, ih (n / 10) hdiv acc]
      simp only [List.foldl_cons, List.foldl_nil, List.length_append,
        List.length_singleton]
      have hmod : n % 10 < 10 := Nat.mod_lt _ (by omega)
      have hpow : acc * 10 ^ ((decRepAux f (n / 10)).length + 1) =
          acc * 10 ^ (decRepAux f (n / 10)).length * 10 := by ring
      rw [hpow]
      omega

theorem decVal_decRep (n : Nat) : decVal (decRep n) = n := by
  have := foldl_dec_decRepAux (n + 1) n (by omega) 0
  simpa [decVal, decRep] using this

theorem decVal_fmt02 (n : Nat) : decVal (fmt02 n) = n := by
  by_cases h10 : n < 10
  · rw [fmt02, if_pos h10]
    have := foldl_dec_decRepAux (n + 1) n (by omega) 0
    simp only [decVal, List.foldl_cons]
    simpa [decRep] using this
  · rw [fmt02, if_neg h10]
    exact decVal_decRep n

theorem fmt02_inj (a b : Nat) (h : fmt02 a = fmt02 b) : a = b := by
  have := decVal_fmt02 a
  rw [h, decVal_fmt02 b] at this
  omega

/-! ### Sibling filename facts -/

/-- The suffix appended to the main filename for sibling number `n`. -/
theorem sibName_eq (fn : List Nat) (compress n : Nat) :
    sibName fn compress n =
      fn ++ ([95] ++ fmt02 n ++ npySuffix ++
        (if compress = 0 then [] else zSuffix)) := by
  by_cases hc : compress = 0
  · simp [sibName, sibBase, hc, List.append_assoc]
  · simp [sibName, sibBase, hc, List.append_assoc]

theorem sibSuffix_no47 (compress n : Nat) (c : Nat)
    (hc : c ∈ [95] ++ fmt02 n ++ npySuffix ++
      (if compress = 0 then ([] : List Nat) else zSuffix)) : c ≠ 47 := by
  rcases List.mem_append.mp hc with h | h
  · rcases List.mem_append.mp h with h2 | h2
    · rcases List.mem_append.mp h2 with h3 | h3
      · simp only [List.mem_singleton] at h3
        omega
      · have := fmt02_digits n c h3
        omega
    · rw [npySuffix] at h2
      simp only [List.mem_cons, List.not_mem_nil, or_false] at h2
      omega
  · by_cases hcc : compress = 0
    · rw [if_pos hcc] at h
      simp at h
    · rw [if_neg hcc, zSuffix] at h
      simp only [List.mem_cons, List.not_mem_nil, or_false] at h
      omega

theorem sibName_inj (fn : List Nat) (compress : Nat) (a b : Nat)
    (h : sibName fn compress a = sibName fn compress b) : a = b := by
  rw [sibName_eq, sibName_eq] at h
  have h2 := List.append_cancel_left h
  simp only [List.append_assoc] at h2
  have h3 := List.append_cancel_left h2
  exact fmt02_inj a b (List.append_cancel_right h3)

theorem sibName_ne_fn (fn : List Nat) (compress n : Nat) :
    sibName fn compress n ≠ fn := by
  intro h
  have hlen := congrArg List.length h
  rw [sibName_eq] at hlen
  simp only [List.length_append] at hlen
  have h4 : npySuffix.length = 4 := rfl
  omega

/-! ### Behaviour of the save path -/

theorem saveObj_cons (Z : ZlibSpec) (fails : Nat → Bool) (fn : List Nat)
    (compress cache : Nat) (h t : PyObj) (st : SaveSt) :
    saveObj Z fails fn compress cache (.pyCons h t) st =
      (.pyCons (saveObj Z fails fn compress cache h st).1
        (saveObj Z fails fn compress cache t
          (saveObj Z fails fn compress cache h st).2).1,
       (saveObj Z fails fn compress cache t
         (saveObj Z fails fn compress cache h st).2).2) := by
  rw [saveObj]

theorem saveObj_arr_small (Z : ZlibSpec) (fails : Nat → Bool) (fn : List Nat)
    (compress cache : Nat) (a : NpArray) (st : SaveSt)
    (h : compress ≠ 0 ∧ a.nbytes < cache * mega) :
    saveObj Z fails fn compress cache (.arr a) st =
      (.arr (if a.kind = .memmap then npAsarray a else a), st) := by
  rw [saveObj, if_pos h]

theorem saveObj_arr_fail (Z : ZlibSpec) (fails : Nat → Bool) (fn : List Nat)
    (compress cache : Nat) (a : NpArray) (st : SaveSt)
    (h : ¬(compress ≠ 0 ∧ a.nbytes < cache * mega))
    (hf : fails (st.counter + 1) = true) :
    saveObj Z fails fn compress cache (.arr a) st =
      (.arr a, { st with log := st.log ++ [extFailMsg] }) := by
  rw [saveObj, if_neg h, if_pos hf]

theorem writeArray_name (Z : ZlibSpec) (compress : Nat) (a : NpArray) (fn : List Nat)
    (n : Nat) :
    (writeArray Z compress a (sibBase fn n)).2.1 = sibName fn compress n := by
  by_cases hc : compress = 0
  · rw [writeArray, if_pos hc, sibName, if_pos hc]
  · rw [writeArray, if_neg hc, sibName, if_neg hc]

theorem saveObj_arr_ext (Z : ZlibSpec) (fails : Nat → Bool) (fn : List Nat)
    (compress cache : Nat) (a : NpArray) (st : SaveSt)
    (h : ¬(compress ≠ 0 ∧ a.nbytes < cache * mega))
    (hf : fails (st.counter + 1) = false) :
    saveObj Z fails fn compress cache (.arr a) st =
      ((writeArray Z compress a (sibBase fn (st.counter + 1))).1,
       { counter := st.counter + 1,
         manifest := st.manifest ++ [sibName fn compress (st.counter + 1)],
         fs := (sibName fn compress (st.counter + 1),
           (writeArray Z compress a (sibBase fn (st.counter + 1))).2.2) :: st.fs,
         log := st.log }) := by
  rw [saveObj, if_neg h, hf]
  simp only [Bool.false_eq_true, if_false, writeArray_name]

/-- Frame lemma for one `save` traversal: some number `k` of arrays are
successfully externalized; the counter advances by `k`, the manifest gains
exactly the sibling names numbered `counter+1 … counter+k` in order, and
the file system gains files under exactly those names. -/
theorem saveObj_frame (Z : ZlibSpec) (fails : Nat → Bool) (fn : List Nat)
    (compress cache : Nat) :
    ∀ (g : PyObj) (st : SaveSt),
      ∃ k,
        (saveObj Z fails fn compress cache g st).2.counter = st.counter + k ∧
        (saveObj Z fails fn compress cache g st).2.manifest =
          st.manifest ++ (List.range' (st.counter + 1) k).map (sibName fn compress) ∧
        (saveObj Z fails fn compress cache g st).2.fs.map Prod.fst =
          ((List.range' (st.counter + 1) k).map (sibName fn compress)).reverse ++
            st.fs.map Prod.fst := by
  intro g
  induction g with
  | pyInt n => intro st; exact ⟨0, by simp [saveObj]⟩
  | pyNil => intro st; exact ⟨0, by simp [saveObj]⟩
  | arr a =>
    intro st
    by_cases hsmall : compress ≠ 0 ∧ a.nbytes < cache * mega
    · rw [saveObj_arr_small Z fails fn compress cache a st hsmall]
      exact ⟨0, by simp⟩
    · cases hf : fails (st.counter + 1) with
      | true =>
        rw [saveObj_arr_fail Z fails fn compress cache a st hsmall hf]
        exact ⟨0, by simp⟩
      | false =>
        rw [saveObj_arr_ext Z fails fn compress cache a st hsmall hf]
        refine ⟨1, by simp, by simp, by simp⟩
  | ndWrap f s => intro st; exact ⟨0, by simp [saveObj]⟩
  | zndWrap f sh s dt ft => intro st; exact ⟨0, by simp [saveObj]⟩
  | pyCons h t ihh iht =>
    intro st
    obtain ⟨k1, hc1, hm1, hf1⟩ := ihh st
    obtain ⟨k2, hc2, hm2, hf2⟩ := iht (saveObj Z fails fn compress cache h st).2
    rw [saveObj_cons]
    refine ⟨k1 + k2, ?_, ?_, ?_⟩
    · rw [hc2, hc1]
      omega
    · rw [hm2, hm1, hc1, List.append_assoc]
      congr 1
      rw [← List.map_append]
      congr 1
      have := List.range'_append_1 (st.counter + 1) k1 k2
      rw [show st.counter + 1 + k1 = st.counter + k1 + 1 by omega] at this
      rw [this, Nat.add_comm k2 k1]
    · have hr : List.range' (st.counter + 1) (k1 + k2)
          = List.range' (st.counter + 1) k1 ++ List.range' (st.counter + 1 + k1) k2 := by
        rw [List.range'_append_1, Nat.add_comm k2 k1]
      rw [hf2, hf1, hc1]
      rw [show st.counter + k1 + 1 = st.counter + 1 + k1 by omega]
      rw [hr, List.map_append, List.reverse_append, List.append_assoc]

/-- With no externalization failures, the number of externalized arrays is
exactly `bigCount`: the arrays failing the small-array fast-path test. -/
theorem saveObj_noFail_count (Z : ZlibSpec) (fn : List Nat)
    (compress cache : Nat) :
    ∀ (g : PyObj) (st : SaveSt),
      (saveObj Z (fun _ => false) fn compress cache g st).2.counter =
        st.counter + bigCount compress cache g := by
  intro g
  induction g with
  | pyInt n => intro st; simp [saveObj, bigCount]
  | pyNil => intro st; simp [saveObj, bigCount]
  | arr a =>
    intro st
    by_cases hsmall : compress ≠ 0 ∧ a.nbytes < cache * mega
    · rw [saveObj_arr_small Z _ fn compress cache a st hsmall]
      simp [bigCount, if_pos hsmall]
    · rw [saveObj_arr_ext Z _ fn compress cache a st hsmall rfl]
      simp [bigCount, if_neg hsmall]
  | ndWrap f s => intro st; simp [saveObj, bigCount]
  | zndWrap f sh s dt ft => intro st; simp [saveObj, bigCount]
  | pyCons h t ihh iht =>
    intro st
    rw [saveObj_cons]
    rw [iht, ihh, bigCount]
    omega

/-- With no externalization failures, the transformed graph keeps exactly
the small arrays inline (memmaps converted to plain arrays) and carries one
wrapper placeholder per externalized array. -/
theorem saveObj_noFail_graph (Z : ZlibSpec) (fn : List Nat)
    (compress cache : Nat) :
    ∀ (g : PyObj) (st : SaveSt),
      arraysOf (saveObj Z (fun _ => false) fn compress cache g st).1 =
        (arraysOf g).filterMap (fun a =>
          if compress ≠ 0 ∧ a.nbytes < cache * mega then
            some (if a.kind = .memmap then npAsarray a else a)
          else none) ∧
      wrapCount (saveObj Z (fun _ => false) fn compress cache g st).1 =
        wrapCount g + bigCount compress cache g := by
  intro g
  induction g with
  | pyInt n => intro st; simp [saveObj, arraysOf, wrapCount, bigCount]
  | pyNil => intro st; simp [saveObj, arraysOf, wrapCount, bigCount]
  | arr a =>
    intro st
    by_cases hsmall : compress ≠ 0 ∧ a.nbytes < cache * mega
    · rw [saveObj_arr_small Z _ fn compress cache a st hsmall]
      simp [arraysOf, wrapCount, bigCount, if_pos hsmall]
    · rw [saveObj_arr_ext Z _ fn compress cache a st hsmall rfl]
      by_cases hc : compress = 0
      · rw [writeArray, if_pos hc]
        simp [arraysOf, wrapCount, bigCount, if_neg hsmall]
      · rw [writeArray, if_neg hc]
        simp [arraysOf, wrapCount, bigCount, if_neg hsmall]
  | ndWrap f s => intro st; simp [saveObj, arraysOf, wrapCount, bigCount]
  | zndWrap f sh s dt ft => intro st; simp [saveObj, arraysOf, wrapCount, bigCount]
  | pyCons h t ihh iht =>
    intro st
    obtain ⟨ha1, hw1⟩ := ihh st
    obtain ⟨ha2, hw2⟩ := iht (saveObj Z (fun _ => false) fn compress cache h st).2
    rw [saveObj_cons]
    constructor
    · simp only [arraysOf, ha1, ha2, List.filterMap_append]
    · simp only [wrapCount, hw1, hw2, bigCount]
      omega

/-! ## Claims C2, C9, C3, C7: the Z-file container -/

/-- Claim C2: for every byte payload `b` — empty or of any length that fits
the fixed-width header, whether or not a multiple of the 64 KiB chunk size —
and for every compression level 0 through 9, `read_zfile` applied to a
stream produced by `write_zfile(stream, b, level)` returns exactly `b`. -/
theorem claim_c2 (Z : ZlibSpec) (hZ : ZlibOk Z) (b : List Nat) (level : Nat)
    (hlev : level ≤ 9) (hbound : b.length < 16 ^ 17) (name : List Nat) :
    read_zfile Z ⟨name, write_zfile Z level (.raw b)⟩ none = .ok b :=
  zfile_roundtrip Z hZ level (.raw b) trivial hbound name none

theorem claim_c2_witness :
    ZlibOk idZlib ∧ (5 : Nat) ≤ 9 ∧ ([1, 2, 3] : List Nat).length < 16 ^ 17 ∧
      read_zfile idZlib ⟨[97], write_zfile idZlib 5 (.raw [1, 2, 3])⟩ none
        = .ok [1, 2, 3] :=
  ⟨idZlib_ok, by decide, by decide,
    claim_c2 idZlib idZlib_ok [1, 2, 3] 5 (by decide) (by decide) [97]⟩

/-- Claim C9: whenever `read_zfile(stream, write_buf)` succeeds with a
caller-supplied buffer, the result is identical to a fresh-buffer read (the
prior content of the buffer is completely overwritten and truncated away),
the returned contents are exactly the decompressed payload, and its length
is the length declared in the header. -/
theorem claim_c9 (Z : ZlibSpec) (fh : FileH) (b0 : List Nat) (out : List Nat)
    (hok : read_zfile Z fh (some b0) = .ok out) :
    read_zfile Z fh (some b0) = read_zfile Z fh none ∧
    out = decompressedStream Z (chunksOf chunkSize (fh.data.drop (2 + zMaxLen))) ∧
    pyIntHex ((fh.data.take (2 + zMaxLen)).drop 2) = some (out.length : Int) := by
  refine ⟨read_zfile_wbuf_irrel Z fh b0, ?_⟩
  by_cases hmagic : fh.data.take 2 = zfMagic
  · cases hparse : pyIntHex ((fh.data.take (2 + zMaxLen)).drop 2) with
    | none =>
      rw [read_zfile, if_pos hmagic, hparse] at hok
      simp at hok
    | some L =>
      rw [read_zfile_eq Z fh (some b0) L hmagic hparse] at hok
      by_cases hcond :
          ((decompressedStream Z
            (chunksOf chunkSize (fh.data.drop (2 + zMaxLen)))).length : Int) = L
      · rw [if_pos hcond] at hok
        have hout : out = decompressedStream Z
            (chunksOf chunkSize (fh.data.drop (2 + zMaxLen))) := by
          injection hok with h
          exact h.symm
        refine ⟨hout, ?_⟩
        rw [hout, hcond]
      · rw [if_neg hcond] at hok
        simp at hok
  · rw [read_zfile, if_neg hmagic] at hok
    simp at hok

theorem claim_c9_witness :
    read_zfile idZlib ⟨[97], write_zfile idZlib 2 (.raw [9, 8])⟩ (some [1, 1, 1, 1, 1])
        = .ok [9, 8] ∧
      (read_zfile idZlib ⟨[97], write_zfile idZlib 2 (.raw [9, 8])⟩ (some [1, 1, 1, 1, 1])
          = read_zfile idZlib ⟨[97], write_zfile idZlib 2 (.raw [9, 8])⟩ none ∧
        [9, 8] = decompressedStream idZlib (chunksOf chunkSize
          ((write_zfile idZlib 2 (.raw [9, 8])).drop (2 + zMaxLen))) ∧
        pyIntHex (((write_zfile idZlib 2 (.raw [9, 8])).take (2 + zMaxLen)).drop 2)
          = some (([9, 8] : List Nat).length : Int)) :=
  ⟨by decide, claim_c9 idZlib ⟨[97], write_zfile idZlib 2 (.raw [9, 8])⟩
    [1, 1, 1, 1, 1] [9, 8] (by decide)⟩

/-- Claim C3: reading a Z-file whose decompressed byte count differs from
the length declared in its header fails with the corruption error carrying
the source stream's identity; in particular (shown for the concrete store
codec) deleting any single byte from a written Z-file's compressed body
fails that way — never returning silently truncated data. -/
theorem claim_c3 :
    (∀ (Z : ZlibSpec) (fh : FileH) (L : Int),
        fh.data.take 2 = zfMagic →
        pyIntHex ((fh.data.take (2 + zMaxLen)).drop 2) = some L →
        ((decompressedStream Z
            (chunksOf chunkSize (fh.data.drop (2 + zMaxLen)))).length : Int) ≠ L →
        read_zfile Z fh none = .error (.corrupt fh.name)) ∧
    (∀ (level : Nat) (bs : List Nat), bs.length < 16 ^ 17 →
      ∀ p, p < bs.length → ∀ name,
        read_zfile idZlib
          ⟨name, (write_zfile idZlib level (.raw bs)).eraseIdx ((2 + zMaxLen) + p)⟩
          none = .error (.corrupt name)) := by
  constructor
  · intro Z fh L hm hp hne
    rw [read_zfile_eq Z fh none L hm hp, if_neg hne]
  · intro level bs hb p hp name
    exact zfile_truncation_corrupt level bs hb p hp name

theorem claim_c3_witness :
    ((zfMagic ++ pyLjust (pyHexBytes 5) zMaxLen ++ [1, 2]).take 2 = zfMagic ∧
      pyIntHex (((zfMagic ++ pyLjust (pyHexBytes 5) zMaxLen ++ [1, 2]).take
        (2 + zMaxLen)).drop 2) = some (5 : Int) ∧
      ((decompressedStream idZlib (chunksOf chunkSize
          ((zfMagic ++ pyLjust (pyHexBytes 5) zMaxLen ++ [1, 2]).drop
            (2 + zMaxLen)))).length : Int) ≠ (5 : Int) ∧
      read_zfile idZlib
          ⟨[98], zfMagic ++ pyLjust (pyHexBytes 5) zMaxLen ++ [1, 2]⟩ none
        = .error (.corrupt [98])) ∧
    (([5, 6] : List Nat).length < 16 ^ 17 ∧ (0 : Nat) < ([5, 6] : List Nat).length ∧
      read_zfile idZlib
          ⟨[97], (write_zfile idZlib 1 (.raw [5, 6])).eraseIdx ((2 + zMaxLen) + 0)⟩
          none = .error (.corrupt [97])) :=
  ⟨⟨by decide, by decide, by decide,
      claim_c3.1 idZlib ⟨[98], zfMagic ++ pyLjust (pyHexBytes 5) zMaxLen ++ [1, 2]⟩
        5 (by decide) (by decide) (by decide)⟩,
    ⟨by decide, by decide, claim_c3.2 1 [5, 6] (by decide) 0 (by decide) [97]⟩⟩

/-- Claim C7 as stated is false: the length field written by `write_zfile`
is not padded to the number of hex digits needed for a 64-bit value (16);
it is Python's `0x`-prefixed hex literal padded to the 19-character length
of `hex(2 ** 64)`.  Concretely, for the one-byte payload `[7]` at level 1
the stream differs from the claimed layout. -/
theorem claim_c7_cex :
    write_zfile idZlib 1 (.raw [7]) ≠ c7ClaimStream idZlib 1 (.raw [7]) := by
  decide

/-- Claim C7 (amended): every stream produced by `write_zfile` begins with
the 2-byte magic, followed by the payload's uncompressed byte length
written as Python's `0x`-prefixed lowercase ASCII hex literal,
left-justified and space-padded to the fixed width 19 — the length of
`hex(2 ** 64)`, i.e. two prefix characters plus 17 digits, not the 16
digits a 64-bit value needs — followed by the compressed chunks and the
compressor's flush tail with no chunk delimiters; the length is the typed
buffer byte count `nbytes` when the data exposes one, and the plain length
otherwise; padding is exact for every length below `16 ^ 17`. -/
theorem claim_c7_amended (Z : ZlibSpec) (level : Nat) (d : ZData) :
    write_zfile Z level d =
      zfMagic ++ pyLjust (pyHexBytes (zdataLen d)) zMaxLen ++
        compressedStream Z level ((zdataIdx d).map (zdataChunk d)) ∧
    zMaxLen = 19 ∧
    (zdataLen d < 16 ^ 17 → (pyLjust (pyHexBytes (zdataLen d)) zMaxLen).length = 19) ∧
    (∀ bs : List Nat, zdataLen (.raw bs) = bs.length) ∧
    (∀ a : NpArray, zdataLen (.arr a) = a.nbytes) := by
  refine ⟨write_zfile_eq Z level d, zMaxLen_eq, ?_, fun _ => rfl, fun _ => rfl⟩
  · intro hb
    rw [zMaxLen_eq]
    exact pyLjust_length _ _ (by rw [← zMaxLen_eq]; exact pyHexBytes_len_le _ hb)

theorem claim_c7_amended_witness :
    (write_zfile idZlib 1 (.raw [7]) =
      zfMagic ++ pyLjust (pyHexBytes (zdataLen (.raw [7]))) zMaxLen ++
        compressedStream idZlib 1
          ((zdataIdx (.raw [7])).map (zdataChunk (.raw [7])))) ∧
    zMaxLen = 19 ∧
    (zdataLen (.raw [7]) < 16 ^ 17 ∧
      (pyLjust (pyHexBytes (zdataLen (.raw [7]))) zMaxLen).length = 19) :=
  ⟨(claim_c7_amended idZlib 1 (.raw [7])).1,
    (claim_c7_amended idZlib 1 (.raw [7])).2.1,
    ⟨by decide, (claim_c7_amended idZlib 1 (.raw [7])).2.2.1 (by decide)⟩⟩

/-! ### Helper lemmas for the dump/load claims -/

theorem dumpModel_eq (Z : ZlibSpec) (pc : PickleSpec) (fails : Nat → Bool)
    (v : PyObj) (fn : List Nat) (compress cache : Nat) :
    dumpModel Z pc fails v fn compress cache =
      ⟨(saveObj Z fails fn compress cache v (initSt fn)).2.manifest,
       (fn, .fbytes (if compress = 0 then
           pc.enc (saveObj Z fails fn compress cache v (initSt fn)).1
         else write_zfile Z compress
           (.raw (pc.enc (saveObj Z fails fn compress cache v (initSt fn)).1)))) ::
         (saveObj Z fails fn compress cache v (initSt fn)).2.fs,
       (saveObj Z fails fn compress cache v (initSt fn)).2.log⟩ := rfl

theorem enc_take2_ne_magic (pc : PickleSpec) (hpc : PickleOk pc) (g : PyObj) :
    (pc.enc g).take 2 ≠ zfMagic := by
  intro h
  have h1 : ((pc.enc g).take 2).take 1 = zfMagic.take 1 := by rw [h]
  rw [List.take_take] at h1
  simp only [Nat.min_def] at h1
  norm_num at h1
  rw [hpc.2 g] at h1
  simp [zfMagic] at h1

theorem write_zfile_take2 (Z : ZlibSpec) (level : Nat) (d : ZData) :
    (write_zfile Z level d).take 2 = zfMagic := by
  rw [write_zfile_eq, List.append_assoc]
  have h2 : (2 : Nat) = zfMagic.length := rfl
  rw [h2, take_len_append]

theorem fsLookup_cons_self (k : List Nat) (v : FileContent)
    (rest : List (List Nat × FileContent)) :
    fsLookup ((k, v) :: rest) k = some v := by
  rw [fsLookup, if_pos rfl]

theorem fsLookup_cons_ne (k q : List Nat) (v : FileContent)
    (rest : List (List Nat × FileContent)) (h : k ≠ q) :
    fsLookup ((k, v) :: rest) q = fsLookup rest q := by
  rw [fsLookup, if_neg h]

theorem sibSuffix_head (compress n : Nat) :
    ([95] ++ fmt02 n ++ npySuffix ++
      (if compress = 0 then ([] : List Nat) else zSuffix)).head? = some 95 := by
  simp

/-- The unpickler's sibling resolution: joining the main file's directory
with the basename stored in a wrapper gives back the sibling's full path. -/
theorem sib_resolve (fn : List Nat) (hp : pathOK fn) (compress n : Nat) :
    joinP (dirnameP fn) (basenameR (sibName fn compress n))
      = sibName fn compress n := by
  rw [sibName_eq,
    basenameR_append fn _ (fun c hc => sibSuffix_no47 compress n c hc)]
  rw [pathOK_join fn _ hp (by rw [sibSuffix_head]; simp)]

theorem materialize_arr (Z : ZlibSpec) (fs : List (List Nat × FileContent))
    (dn : List Nat) (mmap : Option Nat) (a : NpArray) :
    materialize Z fs dn mmap (.arr a) = .ok (.arr a) := rfl

/-- Counting externalized arrays over the array list of a graph. -/
theorem bigCount_arraysOf (compress cache : Nat) :
    ∀ g : PyObj, bigCount compress cache g =
      ((arraysOf g).filter
        (fun a => !decide (compress ≠ 0 ∧ a.nbytes < cache * mega))).length := by
  intro g
  induction g with
  | pyInt n => simp [bigCount, arraysOf]
  | pyNil => simp [bigCount, arraysOf]
  | arr a =>
    simp only [bigCount, arraysOf]
    by_cases hsmall : compress ≠ 0 ∧ a.nbytes < cache * mega
    · rw [if_pos hsmall]
      have hpred : (!decide (compress ≠ 0 ∧ a.nbytes < cache * mega)) = false := by
        simp [hsmall]
      rw [List.filter_cons, if_neg (by rw [hpred]; simp)]
      rfl
    · rw [if_neg hsmall]
      have hpred : (!decide (compress ≠ 0 ∧ a.nbytes < cache * mega)) = true := by
        simp [hsmall]
      rw [List.filter_cons, if_pos (by rw [hpred])]
      rfl
  | ndWrap f s => simp [bigCount, arraysOf]
  | zndWrap f sh s dt ft => simp [bigCount, arraysOf]
  | pyCons h t ihh iht =>
    simp [bigCount, arraysOf, List.filter_append, ihh, iht]

/-! ## Claim C5: manifest shape, counters and uniqueness -/

/-- Claim C5: for every dump — any graph, any failure pattern of the
externalization attempts — the returned filename list is the main file
followed by one entry per successfully externalized array; entry `i`
(1-based) is `<path>_<%02i counter>.npy` (plus `.z` under compression) with
the counter starting at 1 and incrementing only on success (so the sibling
file system keys are exactly the manifest tail), and all names are
distinct.  `k` is the number of successfully externalized arrays. -/
theorem claim_c5 (Z : ZlibSpec) (pc : PickleSpec) (fails : Nat → Bool) (g : PyObj)
    (fn : List Nat) (compress cache : Nat) :
    ∃ k,
      (dumpModel Z pc fails g fn compress cache).files =
        fn :: (List.range' 1 k).map (sibName fn compress) ∧
      (dumpModel Z pc fails g fn compress cache).files.length = 1 + k ∧
      (dumpModel Z pc fails g fn compress cache).fs.map Prod.fst =
        fn :: ((List.range' 1 k).map (sibName fn compress)).reverse ∧
      (dumpModel Z pc fails g fn compress cache).files.Nodup := by
  obtain ⟨k, hc, hm, hf⟩ := saveObj_frame Z fails fn compress cache g (initSt fn)
  refine ⟨k, ?_, ?_, ?_, ?_⟩
  · rw [dumpModel_eq]
    simp only [hm]
    rfl
  · rw [dumpModel_eq]
    simp only [hm]
    simp [initSt]
    omega
  · rw [dumpModel_eq]
    simp only [List.map_cons, hf]
    simp [initSt]
  · rw [dumpModel_eq]
    simp only [hm]
    have hshape : (initSt fn).manifest ++
        (List.range' ((initSt fn).counter + 1) k).map (sibName fn compress)
        = fn :: (List.range' 1 k).map (sibName fn compress) := rfl
    rw [hshape]
    refine List.Nodup.cons ?_ ?_
    · intro hmem
      obtain ⟨i, _, hi⟩ := List.mem_map.mp hmem
      exact sibName_ne_fn fn compress i hi
    · refine List.Nodup.map ?_ (List.nodup_range' 1 k)
      intro x y hxy
      exact sibName_inj fn compress x y hxy

/-! ## Claim C4: the cache-size externalization threshold -/

/-- Claim C4: with compression enabled at level 1–9 and `cache_size = k`
megabytes, dumping a graph whose single array has byte size strictly below
`k * 2 ^ 20` produces no sibling file at all (the array stays inline as an
array node, not a wrapper), while an array at or above the threshold
produces exactly one sibling file, named with the `.z` suffix, and is
replaced by a wrapper placeholder. -/
theorem claim_c4 (Z : ZlibSpec) (pc : PickleSpec) (g : PyObj) (a : NpArray)
    (fn : List Nat) (compress cache : Nat) (hc1 : 1 ≤ compress) (hc9 : compress ≤ 9)
    (harr : arraysOf g = [a]) (hw : wrapCount g = 0) :
    (a.nbytes < cache * mega →
      (dumpModel Z pc (fun _ => false) g fn compress cache).files = [fn] ∧
      (dumpModel Z pc (fun _ => false) g fn compress cache).fs.map Prod.fst = [fn] ∧
      arraysOf (dumpGraph Z (fun _ => false) g fn compress cache) =
        [if a.kind = .memmap then npAsarray a else a] ∧
      wrapCount (dumpGraph Z (fun _ => false) g fn compress cache) = 0) ∧
    (cache * mega ≤ a.nbytes →
      (dumpModel Z pc (fun _ => false) g fn compress cache).files =
        [fn, sibName fn compress 1] ∧
      (dumpModel Z pc (fun _ => false) g fn compress cache).fs.map Prod.fst =
        [fn, sibName fn compress 1] ∧
      sibName fn compress 1 = sibBase fn 1 ++ zSuffix ∧
      arraysOf (dumpGraph Z (fun _ => false) g fn compress cache) = [] ∧
      wrapCount (dumpGraph Z (fun _ => false) g fn compress cache) = 1) := by
  have hcz : compress ≠ 0 := by omega
  obtain ⟨k, hc, hm, hf⟩ := saveObj_frame Z (fun _ => false) fn compress cache g (initSt fn)
  have hcount := saveObj_noFail_count Z fn compress cache g (initSt fn)
  have hkbig : k = bigCount compress cache g := by
    rw [hcount] at hc
    simpa [initSt] using hc.symm
  have hbigg := bigCount_arraysOf compress cache g
  rw [harr] at hbigg
  obtain ⟨hga, hgw⟩ := saveObj_noFail_graph Z fn compress cache g (initSt fn)
  rw [harr] at hga
  constructor
  · intro hsmall
    have hsm : compress ≠ 0 ∧ a.nbytes < cache * mega := ⟨hcz, hsmall⟩
    have hk0 : k = 0 := by
      have hpred : (!decide (compress ≠ 0 ∧ a.nbytes < cache * mega)) = false := by
        simp [hsm]
      rw [hkbig, hbigg, List.filter_cons, if_neg (by rw [hpred]; simp)]
      rfl
    subst hk0
    refine ⟨?_, ?_, ?_, ?_⟩
    · rw [dumpModel_eq]
      simp only [hm]
      simp [initSt]
    · rw [dumpModel_eq]
      simp only [List.map_cons, hf]
      simp [initSt]
    · rw [dumpGraph, hga]
      simp only [List.filterMap_cons, if_pos hsm, List.filterMap_nil]
    · rw [dumpGraph, hgw, hw, hkbig.symm]
  · intro hbig
    have hns : ¬(compress ≠ 0 ∧ a.nbytes < cache * mega) := by
      intro hcon
      omega
    have hk1 : k = 1 := by
      have hpred : (!decide (compress ≠ 0 ∧ a.nbytes < cache * mega)) = true := by
        simp [hns]
      rw [hkbig, hbigg, List.filter_cons, if_pos (by rw [hpred])]
      rfl
    subst hk1
    refine ⟨?_, ?_, ?_, ?_, ?_⟩
    · rw [dumpModel_eq]
      simp only [hm]
      simp [initSt, List.range']
    · rw [dumpModel_eq]
      simp only [List.map_cons, hf]
      simp [initSt, List.range']
    · rw [sibName, if_neg hcz]
    · rw [dumpGraph, hga]
      simp only [List.filterMap_cons, if_neg hns, List.filterMap_nil]
    · rw [dumpGraph, hgw, hw, hkbig.symm]

/-! ### Load-path helpers -/

theorem loadModel_plain (Z : ZlibSpec) (pc : PickleSpec)
    (fs : List (List Nat × FileContent)) (p mainBytes : List Nat)
    (hmain : fsLookup fs p = some (.fbytes mainBytes))
    (hnm : mainBytes.take 2 ≠ zfMagic) :
    loadModel Z pc fs p none =
      (match pc.dec mainBytes with
       | none => .error .unpickleErr
       | some g =>
         match materialize Z fs (dirnameP p) none g with
         | .ok v => .ok ⟨v, []⟩
         | .error e => .error e) := by
  rw [loadModel, hmain]
  simp only []
  rw [if_neg hnm]

theorem loadModel_zf (Z : ZlibSpec) (pc : PickleSpec)
    (fs : List (List Nat × FileContent)) (p mainBytes : List Nat)
    (hmain : fsLookup fs p = some (.fbytes mainBytes))
    (hm : mainBytes.take 2 = zfMagic) :
    loadModel Z pc fs p none =
      (match read_zfile Z ⟨p, mainBytes⟩ none with
       | .error e => .error (.zerr e)
       | .ok payload =>
         match pc.dec payload with
         | none => .error .unpickleErr
         | some g =>
           match materialize Z fs (dirnameP p) none g with
           | .ok v => .ok ⟨v, []⟩
           | .error e => .error e) := by
  rw [loadModel, hmain]
  simp only []
  rw [if_pos hm]

/-! ## Claim C8: `mmap_mode` on a compressed main file -/

/-- Claim C8: when `load` is given a non-`None` `mmap_mode` and the main
file's first bytes match the Z-file magic, it emits the (non-fatal) warning
carrying the filename and the mode, ignores the mode entirely, and returns
exactly what a no-mmap load returns — succeeding whenever that one does. -/
theorem claim_c8 (Z : ZlibSpec) (pc : PickleSpec)
    (fs : List (List Nat × FileContent)) (p : List Nat) (m : Nat)
    (mainBytes : List Nat)
    (hmain : fsLookup fs p = some (.fbytes mainBytes))
    (hmagic : mainBytes.take 2 = zfMagic) :
    loadModel Z pc fs p (some m) =
      (loadModel Z pc fs p none).map (fun r => ⟨r.value, [(p, m)]⟩) := by
  rw [loadModel, loadModel, hmain]
  simp only []
  rw [if_pos hmagic, if_pos hmagic]
  cases hread : read_zfile Z ⟨p, mainBytes⟩ none with
  | error e => simp [hread, Except.map]
  | ok payload =>
    cases hdec : pc.dec payload with
    | none => simp [hread, hdec, Except.map]
    | some g =>
      cases hmat : materialize Z fs (dirnameP p) none g with
      | error e => simp [hread, hdec, hmat, Except.map]
      | ok v => simp [hread, hdec, hmat, Except.map]

/-! ## Claim C6: recovery from a failed externalization -/

/-- Claim C6: if externalizing an array raises, `save` recovers locally —
the counter is rolled back to its pre-attempt value, the manifest gains no
entry, the array is serialized inline through the generic path, and the
failure is reported (a message printed to standard output, modelled as the
log); the dump as a whole completes with just the main file, and loading it
still returns the array. -/
theorem claim_c6 (Z : ZlibSpec) (pc : PickleSpec) (hZ : ZlibOk Z)
    (hpc : PickleOk pc) (fails : Nat → Bool) (fn : List Nat)
    (compress cache : Nat) (a : NpArray)
    (hbig : ¬(compress ≠ 0 ∧ a.nbytes < cache * mega))
    (henc : (pc.enc (.arr a)).length < 16 ^ 17)
    (hf1 : fails 1 = true) :
    (∀ st : SaveSt, fails (st.counter + 1) = true →
      saveObj Z fails fn compress cache (.arr a) st =
        (.arr a, { st with log := st.log ++ [extFailMsg] })) ∧
    (dumpModel Z pc fails (.arr a) fn compress cache).files = [fn] ∧
    (dumpModel Z pc fails (.arr a) fn compress cache).log = [extFailMsg] ∧
    loadModel Z pc (dumpModel Z pc fails (.arr a) fn compress cache).fs fn none
      = .ok ⟨.arr a, []⟩ := by
  have hsave : saveObj Z fails fn compress cache (.arr a) (initSt fn) =
      (.arr a, { initSt fn with log := (initSt fn).log ++ [extFailMsg] }) :=
    saveObj_arr_fail Z fails fn compress cache a (initSt fn) hbig
      (by simpa [initSt] using hf1)
  refine ⟨fun st hst => saveObj_arr_fail Z fails fn compress cache a st hbig hst,
    ?_, ?_, ?_⟩
  · rw [dumpModel_eq, hsave]
    rfl
  · rw [dumpModel_eq, hsave]
    rfl
  · rw [dumpModel_eq, hsave]
    dsimp only [initSt]
    by_cases hc0 : compress = 0
    · rw [if_pos hc0]
      rw [loadModel_plain Z pc _ fn (pc.enc (.arr a)) (fsLookup_cons_self _ _ _)
        (enc_take2_ne_magic pc hpc (.arr a))]
      rw [hpc.1 (.arr a)]
      simp only [materialize_arr]
    · rw [if_neg hc0]
      rw [loadModel_zf Z pc _ fn _ (fsLookup_cons_self _ _ _)
        (write_zfile_take2 Z compress _)]
      rw [zfile_roundtrip Z hZ compress (.raw (pc.enc (.arr a))) trivial henc fn none]
      simp only [zdataBytes]
      rw [hpc.1 (.arr a)]
      simp only [materialize_arr]

/-! ## Claim C10: small memmaps are converted before inlining -/

/-- Claim C10: with compression enabled, a memory-mapped array below the
cache threshold is converted (`np.asarray`) to a plain base-type array
before being serialized inline, so loading the dump yields an ordinary
in-memory array — never a memmap — equal in values, dtype and shape. -/
theorem claim_c10 (Z : ZlibSpec) (pc : PickleSpec) (hZ : ZlibOk Z)
    (hpc : PickleOk pc) (fn : List Nat) (compress cache : Nat)
    (hc1 : 1 ≤ compress) (a : NpArray) (hk : a.kind = .memmap)
    (hsmall : a.nbytes < cache * mega)
    (henc : (pc.enc (.arr (npAsarray a))).length < 16 ^ 17) :
    dumpGraph Z (fun _ => false) (.arr a) fn compress cache = .arr (npAsarray a) ∧
    (npAsarray a).kind = .ndarray ∧
    valEq (npAsarray a) a ∧
    (dumpModel Z pc (fun _ => false) (.arr a) fn compress cache).files = [fn] ∧
    loadModel Z pc (dumpModel Z pc (fun _ => false) (.arr a) fn compress cache).fs
      fn none = .ok ⟨.arr (npAsarray a), []⟩ := by
  have hcz : compress ≠ 0 := by omega
  have hsm : compress ≠ 0 ∧ a.nbytes < cache * mega := ⟨hcz, hsmall⟩
  have hsave : saveObj Z (fun _ => false) fn compress cache (.arr a) (initSt fn) =
      (.arr (npAsarray a), initSt fn) := by
    rw [saveObj_arr_small Z _ fn compress cache a (initSt fn) hsm, if_pos hk]
  refine ⟨?_, rfl, ⟨rfl, rfl, rfl⟩, ?_, ?_⟩
  · rw [dumpGraph, hsave]
  · rw [dumpModel_eq, hsave]
    rfl
  · rw [dumpModel_eq, hsave]
    dsimp only [initSt]
    rw [if_neg hcz]
    rw [loadModel_zf Z pc _ fn _ (fsLookup_cons_self _ _ _)
      (write_zfile_take2 Z compress _)]
    rw [zfile_roundtrip Z hZ compress (.raw (pc.enc (.arr (npAsarray a))))
      trivial henc fn none]
    simp only [zdataBytes]
    rw [hpc.1 (.arr (npAsarray a))]
    simp only [materialize_arr]

/-! ## Claim C1: the dump/load round trip fails for ndarray subclasses -/

/-- Claim C1 (refuted by the code — a bug): the claimed round trip fails
for every supported non-trivial ndarray subclass (`np.matrix`) with
nonempty data.  At `compress = 0` every intercepted array is externalized
to a `.npy` sibling behind an `NDArrayWrapper` carrying `type(array)`;
on load, `NDArrayWrapper.read` builds the empty
`_reconstruct(subclass, (0,), 'b')` placeholder, discards the value
returned by `new_array.__array_prepare__(array)`, and returns the
placeholder — so the load succeeds but yields the empty shape-`(0,)`
int8 stub, which is not equal to the original in values, dtype or
shape. -/
theorem claim_c1_bug (Z : ZlibSpec) (pc : PickleSpec)
    (hpc : PickleOk pc) (fn : List Nat) (hp : pathOK fn) (a : NpArray)
    (hsub : a.kind ≠ NpKind.ndarray ∧ a.kind ≠ NpKind.memmap)
    (hne : a.data ≠ []) (cache : Nat) :
    loadModel Z pc (dumpModel Z pc (fun _ => false) (.arr a) fn 0 cache).fs
        fn none = .ok ⟨.arr (reconstructStub a.kind), []⟩ ∧
    ¬ valEq (reconstructStub a.kind) a := by
  refine ⟨?_, fun hv => hne hv.1.symm⟩
  have hns : ¬((0 : Nat) ≠ 0 ∧ a.nbytes < cache * mega) := by simp
  have hsave := saveObj_arr_ext Z (fun _ => false) fn 0 cache a (initSt fn) hns rfl
  have hwa : writeArray Z 0 a (sibBase fn ((initSt fn).counter + 1))
      = (.ndWrap (basenameR (sibName fn 0 1)) a.kind, sibName fn 0 1, .npy a) := by
    rw [writeArray, if_pos rfl]
    rw [show sibName fn 0 1 = sibBase fn 1 from by rw [sibName, if_pos rfl]]
    rfl
  rw [hwa] at hsave
  rw [dumpModel_eq, hsave]
  dsimp only [initSt]
  rw [if_pos rfl]
  rw [loadModel_plain Z pc _ fn _ (fsLookup_cons_self _ _ _)
    (enc_take2_ne_magic pc hpc _)]
  rw [hpc.1]
  simp only [materialize]
  rw [sib_resolve fn hp 0 1]
  rw [fsLookup_cons_ne _ _ _ _ (fun h => sibName_ne_fn fn 0 1 h.symm),
    fsLookup_cons_self]
  simp only [Option.isSome_none, Bool.false_eq_true, if_false]
  rw [if_pos hsub]

theorem claim_c1_bug_witness :
    PickleOk pcConc ∧ pathOK [97] ∧
    (wMtx.kind ≠ NpKind.ndarray ∧ wMtx.kind ≠ NpKind.memmap) ∧ wMtx.data ≠ [] ∧
    (loadModel idZlib pcConc
        (dumpModel idZlib pcConc (fun _ => false) (.arr wMtx) [97] 0 0).fs [97] none
      = .ok ⟨.arr (reconstructStub wMtx.kind), []⟩ ∧
    ¬ valEq (reconstructStub wMtx.kind) wMtx) :=
  ⟨pcConc_ok, by unfold pathOK; decide, by decide, by decide,
    claim_c1_bug idZlib pcConc pcConc_ok [97] (by unfold pathOK; decide)
      wMtx (by decide) (by decide) 0⟩

theorem claim_c4_witness :
    ((1 : Nat) ≤ 3 ∧ (3 : Nat) ≤ 9 ∧ arraysOf c4g = [wArr] ∧ wrapCount c4g = 0) ∧
    (wArr.nbytes < 1 * mega ∧
      ((dumpModel idZlib pcConc (fun _ => false) c4g [97] 3 1).files = [[97]] ∧
       (dumpModel idZlib pcConc (fun _ => false) c4g [97] 3 1).fs.map Prod.fst
         = [[97]] ∧
       arraysOf (dumpGraph idZlib (fun _ => false) c4g [97] 3 1) =
         [if wArr.kind = .memmap then npAsarray wArr else wArr] ∧
       wrapCount (dumpGraph idZlib (fun _ => false) c4g [97] 3 1) = 0)) ∧
    (0 * mega ≤ wArr.nbytes ∧
      ((dumpModel idZlib pcConc (fun _ => false) c4g [97] 3 0).files
         = [[97], sibName [97] 3 1] ∧
       (dumpModel idZlib pcConc (fun _ => false) c4g [97] 3 0).fs.map Prod.fst
         = [[97], sibName [97] 3 1] ∧
       sibName [97] 3 1 = sibBase [97] 1 ++ zSuffix ∧
       arraysOf (dumpGraph idZlib (fun _ => false) c4g [97] 3 0) = [] ∧
       wrapCount (dumpGraph idZlib (fun _ => false) c4g [97] 3 0) = 1)) :=
  ⟨⟨by decide, by decide, by decide, by decide⟩,
   ⟨by decide,
    (claim_c4 idZlib pcConc c4g wArr [97] 3 1 (by decide) (by decide) (by decide)
      (by decide)).1 (by decide)⟩,
   ⟨by decide,
    (claim_c4 idZlib pcConc c4g wArr [97] 3 0 (by decide) (by decide) (by decide)
      (by decide)).2 (by decide)⟩⟩

theorem claim_c6_witness :
    ZlibOk idZlib ∧ PickleOk pcConc ∧
    ¬((3 : Nat) ≠ 0 ∧ wArr.nbytes < 0 * mega) ∧
    (pcConc.enc (.arr wArr)).length < 16 ^ 17 ∧
    ((∀ st : SaveSt, (fun _ : Nat => true) (st.counter + 1) = true →
        saveObj idZlib (fun _ => true) [97] 3 0 (.arr wArr) st =
          (.arr wArr, { st with log := st.log ++ [extFailMsg] })) ∧
      (dumpModel idZlib pcConc (fun _ => true) (.arr wArr) [97] 3 0).files
        = [[97]] ∧
      (dumpModel idZlib pcConc (fun _ => true) (.arr wArr) [97] 3 0).log
        = [extFailMsg] ∧
      loadModel idZlib pcConc
          (dumpModel idZlib pcConc (fun _ => true) (.arr wArr) [97] 3 0).fs [97] none
        = .ok ⟨.arr wArr, []⟩) :=
  ⟨idZlib_ok, pcConc_ok, by decide, by decide,
    claim_c6 idZlib pcConc idZlib_ok pcConc_ok (fun _ => true) [97] 3 0 wArr
      (by decide) (by decide) rfl⟩

theorem claim_c8_witness :
    fsLookup c8fs [97]
        = some (.fbytes (write_zfile idZlib 3 (.raw (pcConc.enc .pyNil)))) ∧
    (write_zfile idZlib 3 (.raw (pcConc.enc .pyNil))).take 2 = zfMagic ∧
    loadModel idZlib pcConc c8fs [97] (some 1) =
      (loadModel idZlib pcConc c8fs [97] none).map (fun r => ⟨r.value, [([97], 1)]⟩) :=
  ⟨by decide, by decide,
    claim_c8 idZlib pcConc c8fs [97] 1
      (write_zfile idZlib 3 (.raw (pcConc.enc .pyNil))) (by decide) (by decide)⟩

theorem claim_c10_witness :
    ZlibOk idZlib ∧ PickleOk pcConc ∧ (1 : Nat) ≤ 3 ∧ wMap.kind = .memmap ∧
    wMap.nbytes < 1 * mega ∧
    (pcConc.enc (.arr (npAsarray wMap))).length < 16 ^ 17 ∧
    (dumpGraph idZlib (fun _ => false) (.arr wMap) [97] 3 1 = .arr (npAsarray wMap) ∧
      (npAsarray wMap).kind = .ndarray ∧
      valEq (npAsarray wMap) wMap ∧
      (dumpModel idZlib pcConc (fun _ => false) (.arr wMap) [97] 3 1).files = [[97]] ∧
      loadModel idZlib pcConc
          (dumpModel idZlib pcConc (fun _ => false) (.arr wMap) [97] 3 1).fs [97] none
        = .ok ⟨.arr (npAsarray wMap), []⟩) :=
  ⟨idZlib_ok, pcConc_ok, by decide, by decide, by decide, by decide,
    claim_c10 idZlib pcConc idZlib_ok pcConc_ok [97] 3 1 (by decide) wMap
      (by decide) (by decide) (by decide)⟩

end NumpyPickle
